import Mathlib

/-!
Verification of the ITKIOScanco header codec against its specification.

Conventions of the shallow embedding:

* A C byte buffer is modelled as `Bytes`: a natural number `val` packing the
  bytes in little-endian order (byte `i` is `val / 2^(8*i) % 256`) together
  with its length in bytes.  Reading past the end of a buffer yields 0, i.e.
  buffers are implicitly zero-extended; all modelled code only reads inside
  the buffers it is given (C strings are assumed null-terminated inside
  their fixed-size fields, as the surrounding structs guarantee).
* C `double`/`float` values are modelled by `Q`, an exact rational type with
  kernel-computable arithmetic.  Decoding an IEEE-754 float or double from
  bytes is exact in C and is modelled exactly; subsequent C arithmetic
  (multiplications by 1e-3 and the like) incurs IEEE rounding of less than
  one part in 2^52, which the model performs exactly instead.  No claim in
  scope depends on that rounding.  Non-finite IEEE encodings (exponent
  all-ones) are outside the model; predicates `finiteF32` / `finiteF64`
  delimit them where relevant.
* C `int` arithmetic is modelled on `Int` with two's-complement wrapping
  made explicit where the code relies on it; C integer division is
  truncating division (`Int.tdiv`), which coincides with `Nat` division on
  the non-negative operands appearing here.
-/

set_option maxRecDepth 200000
set_option exponentiation.threshold 100000

namespace Scanco

/-- A byte buffer: `val` packs the bytes little-endian, `len` is the byte
count, and `isLt` says no bytes beyond `len` are set. -/
structure Bytes where
  val : Nat
  len : Nat
  isLt : val < 2 ^ (8 * len)

instance : DecidableEq Bytes := fun a b =>
  decidable_of_iff (a.val = b.val ∧ a.len = b.len) (by
    cases a; cases b
    simp [Bytes.mk.injEq])

/-- Byte `i` of a buffer (0 when `i ≥ len`). -/
def Bytes.byteAt (b : Bytes) (i : Nat) : Nat := b.val / 2 ^ (8 * i) % 256

/-- Concatenation of two buffers. -/
def Bytes.append (a b : Bytes) : Bytes :=
  ⟨a.val + b.val * 2 ^ (8 * a.len), a.len + b.len, by
    have ha := a.isLt
    have hb := b.isLt
    have h1 : b.val + 1 ≤ 2 ^ (8 * b.len) := hb
    have h2 : a.val + b.val * 2 ^ (8 * a.len) + 1 ≤ (b.val + 1) * 2 ^ (8 * a.len) := by
      nlinarith
    have h3 : (b.val + 1) * 2 ^ (8 * a.len) ≤ 2 ^ (8 * b.len) * 2 ^ (8 * a.len) :=
      Nat.mul_le_mul_right _ h1
    have h4 : 2 ^ (8 * b.len) * 2 ^ (8 * a.len) = 2 ^ (8 * (a.len + b.len)) := by
      rw [← pow_add]; ring_nf
    omega⟩

instance : Append Bytes := ⟨Bytes.append⟩

/-- The empty / all-zero buffer of `n` bytes. -/
def zerosB (n : Nat) : Bytes := ⟨0, n, by positivity⟩

/-- A one-byte buffer. -/
def byteB (x : Nat) : Bytes := ⟨x % 256, 1, by have := Nat.mod_lt x (show 0 < 256 by norm_num); omega⟩

/-- The first `k` bytes of a buffer. -/
def takeB (b : Bytes) (k : Nat) : Bytes :=
  ⟨b.val % 2 ^ (8 * k), min k b.len, by
    rcases le_total k b.len with h | h
    · have : b.val % 2 ^ (8 * k) < 2 ^ (8 * k) := Nat.mod_lt _ (by positivity)
      simpa [Nat.min_eq_left h] using this
    · have hv := b.isLt
      have : b.val % 2 ^ (8 * k) ≤ b.val := Nat.mod_le _ _
      simp only [Nat.min_eq_right h]
      omega⟩

/-- The buffer with its first `k` bytes removed. -/
def dropB (b : Bytes) (k : Nat) : Bytes :=
  ⟨b.val / 2 ^ (8 * k), b.len - k, by
    have hv := b.isLt
    have h2 : b.val / 2 ^ (8 * k) < 2 ^ (8 * b.len) / 2 ^ (8 * k) + 1 := by
      have := Nat.div_le_div_right (c := 2 ^ (8 * k)) (Nat.le_of_lt_succ (Nat.lt_succ_of_lt hv))
      omega
    rcases le_total k b.len with h | h
    · have hpow : 2 ^ (8 * b.len) / 2 ^ (8 * k) = 2 ^ (8 * (b.len - k)) := by
        rw [Nat.pow_div (by omega) (by norm_num)]
        congr 1
        omega
      have hlt : b.val / 2 ^ (8 * k) < 2 ^ (8 * (b.len - k)) := by
        apply Nat.div_lt_of_lt_mul
        calc b.val < 2 ^ (8 * b.len) := hv
        _ = 2 ^ (8 * k) * 2 ^ (8 * (b.len - k)) := by rw [← pow_add]; congr 1; omega
      exact hlt
    · have hz : b.len - k = 0 := by omega
      have : b.val < 2 ^ (8 * k) := lt_of_lt_of_le hv (Nat.pow_le_pow_right (by norm_num) (by omega))
      rw [hz]
      have := Nat.div_eq_of_lt this
      omega⟩

/-- Pack an explicit little list of byte values into a number (little-endian). -/
def packBytes (l : List Nat) : Nat := l.foldr (fun b acc => b % 256 + 256 * acc) 0

/-- An exact rational: the model of a C `double` (see the file comment).
All operations normalize, so `=` is value equality for operation results. -/
structure Q where
  num : Int
  den : Nat
deriving DecidableEq

/-- Normalized fraction constructor. -/
def qmk (n : Int) (d : Nat) : Q :=
  if d = 0 then ⟨0, 1⟩
  else
    let g := Nat.gcd n.natAbs d
    ⟨n.tdiv g, d / g⟩

def qofInt (n : Int) : Q := ⟨n, 1⟩

def qadd (a b : Q) : Q := qmk (a.num * b.den + b.num * a.den) (a.den * b.den)

def qsub (a b : Q) : Q := qmk (a.num * b.den - b.num * a.den) (a.den * b.den)

def qmul (a b : Q) : Q := qmk (a.num * b.num) (a.den * b.den)

/-- Division; division by zero is out of the model (C would give inf/NaN). -/
def qdivQ (a b : Q) : Q :=
  if b.num = 0 then ⟨0, 1⟩
  else qmk (a.num * b.den * (if b.num < 0 then -1 else 1)) (a.den * b.num.natAbs)

def qlt (a b : Q) : Prop := a.num * b.den < b.num * a.den

instance (a b : Q) : Decidable (qlt a b) := by unfold qlt; infer_instance

def qle (a b : Q) : Prop := a.num * b.den ≤ b.num * a.den

instance (a b : Q) : Decidable (qle a b) := by unfold qle; infer_instance

/-- Absolute value, the model of C `fabs`. -/
def qabs (a : Q) : Q := ⟨|a.num|, a.den⟩

/-- Truncation toward zero, the model of a C `double`-to-`int` cast. -/
def qtrunc (a : Q) : Int := a.num.tdiv a.den

/-! ## Primitive codec (itkScancoDataManipulation.cxx) -/

/-- `DecodeInt` (itkScancoDataManipulation.cxx:67): little-endian signed
32-bit integer `cp[0] | cp[1]<<8 | cp[2]<<16 | cp[3]<<24` at byte offset
`off`. -/
def DecodeInt (b : Bytes) (off : Nat) : Int :=
  let u : Nat := b.val / 2 ^ (8 * off) % 2 ^ 32
  if u < 2 ^ 31 then (u : Int) else (u : Int) - 2 ^ 32

/-- `DecodeInt64`, declared in itkScancoDataManipulation.h:114 but with no
body under src.  Modelled from the spec: §4.1 `decode_int64` is
"little-endian (8 bytes, same pattern extended)". -/
def DecodeInt64 (b : Bytes) (off : Nat) : Int :=
  let u : Nat := b.val / 2 ^ (8 * off) % 2 ^ 64
  if u < 2 ^ 63 then (u : Int) else (u : Int) - 2 ^ 64

/-- `EncodeInt` (itkScancoDataManipulation.cxx:75): four little-endian bytes
of the 32-bit two's complement representation. -/
def EncodeInt (n : Int) : Bytes :=
  ⟨(n % 2 ^ 32).toNat, 4, by
    have h1 : 0 ≤ n % 2 ^ 32 := Int.emod_nonneg n (by norm_num)
    have h2 : n % 2 ^ 32 < 2 ^ 32 := Int.emod_lt_of_pos n (by norm_num)
    omega⟩

/-- `EncodeInt64` (itkScancoDataManipulation.cxx:85): eight little-endian
bytes of the 64-bit two's complement representation. -/
def EncodeInt64 (n : Int) : Bytes :=
  ⟨(n % 2 ^ 64).toNat, 8, by
    have h1 : 0 ≤ n % 2 ^ 64 := Int.emod_nonneg n (by norm_num)
    have h2 : n % 2 ^ 64 < 2 ^ 64 := Int.emod_lt_of_pos n (by norm_num)
    omega⟩

/-- ASCII bytes of the string CTDATA-HEADER_V1, packed little-endian. -/
def ctHeaderVal : Nat :=
  packBytes [67, 84, 68, 65, 84, 65, 45, 72, 69, 65, 68, 69, 82, 95, 86, 49]

/-- ASCII bytes of AIMDATA_V030 with three trailing spaces (15 chars). -/
def aim030Val : Nat :=
  packBytes [65, 73, 77, 68, 65, 84, 65, 95, 86, 48, 51, 48, 32, 32, 32]

/-- `CheckVersion` (itkScancoDataManipulation.cxx:46): the refactored free
function.  1 for the ISQ magic (strncmp over 16 bytes), 3 for the AIM v030
magic (strcmp: 15 chars and the terminating null), and otherwise 2 —
unconditionally, with no check of the two leading int32 fields. -/
def CheckVersion (b : Bytes) : Int :=
  if b.val % 2 ^ 128 = ctHeaderVal then 1
  else if b.val % 2 ^ 120 = aim030Val ∧ b.byteAt 15 = 0 then 3
  else 2

/-- `ScancoImageIO::CheckVersion` (itkScancoImageIO.cxx:77): the member
version.  Same magic comparisons, but the fallthrough requires the two
little-endian int32s at bytes 0..4 and 4..8 to equal 20 and 140 for AIM
v020, and yields 0 (unrecognized) otherwise. -/
def imageIOCheckVersion (b : Bytes) : Int :=
  if b.val % 2 ^ 128 = ctHeaderVal then 1
  else if b.val % 2 ^ 120 = aim030Val ∧ b.byteAt 15 = 0 then 3
  else if DecodeInt b 0 = 20 ∧ DecodeInt b 4 = 140 then 2
  else 0

/-- Length of the C string at the start of a buffer: number of bytes before
the first null, scanning at most `k` bytes of `v`. -/
def strlenAux (v : Nat) : Nat → Nat
  | 0 => 0
  | k + 1 => if v % 256 = 0 then 0 else 1 + strlenAux (v / 256) k

/-- `strlen` of the C string held in a buffer (buffers are implicitly
zero-extended, so the scan is bounded by the length). -/
def strlenB (b : Bytes) : Nat := strlenAux b.val b.len

/-- `PadString` (itkScancoDataManipulation.cxx:340): copy up to `length`
non-null source characters, then unconditionally write `length` further
spaces.  The bytes stored into `dest`, in order. -/
def PadString (src : Bytes) (length : Nat) : Bytes :=
  takeB src (min (strlenB src) length) ++ spacesB length
where
  /-- A run of ASCII space (0x20) bytes. -/
  spacesB : Nat → Bytes
    | 0 => zerosB 0
    | n + 1 => byteB 32 ++ spacesB n

/-- `StripString` (itkScancoDataManipulation.cxx:325): copy up to `length`
non-null characters, then remove trailing spaces. -/
def StripString (src : Bytes) (length : Nat) : Bytes :=
  stripTrail (takeB src (min (strlenB src) length)) (min (strlenB src) length)
where
  /-- Remove trailing 0x20 bytes; the fuel is the buffer length. -/
  stripTrail (b : Bytes) : Nat → Bytes
    | 0 => b
    | k + 1 =>
      if b.len = 0 then b
      else if b.byteAt (b.len - 1) = 32 then stripTrail (takeB b (b.len - 1)) k
      else b

/-! ## Basic lemmas about `Bytes` -/

theorem Bytes.append_val (a b : Bytes) : (a ++ b).val = a.val + b.val * 2 ^ (8 * a.len) := rfl

theorem Bytes.append_len (a b : Bytes) : (a ++ b).len = a.len + b.len := rfl

theorem packBytes_lt (l : List Nat) : packBytes l < 2 ^ (8 * l.length) := by
  induction l with
  | nil => simp [packBytes]
  | cons b t ih =>
    have hb : b % 256 < 256 := Nat.mod_lt _ (by norm_num)
    have hstep : packBytes (b :: t) = b % 256 + 256 * packBytes t := rfl
    have h1 : packBytes t + 1 ≤ 2 ^ (8 * t.length) := ih
    have h2 : 256 * (packBytes t + 1) ≤ 256 * 2 ^ (8 * t.length) := Nat.mul_le_mul_left _ h1
    have h3 : (256 : Nat) * 2 ^ (8 * t.length) = 2 ^ (8 * (t.length + 1)) := by
      rw [show 8 * (t.length + 1) = 8 + 8 * t.length by ring, pow_add]
      norm_num
    have h4 : (b :: t).length = t.length + 1 := rfl
    rw [hstep, h4, ← h3]
    omega

/-- Build a buffer from an explicit byte list. -/
def mkBytes (l : List Nat) : Bytes := ⟨packBytes l, l.length, packBytes_lt l⟩

theorem Bytes.byteAt_append (a b : Bytes) (i : Nat) :
    (a ++ b).byteAt i = if i < a.len then a.byteAt i else b.byteAt (i - a.len) := by
  by_cases h : i < a.len
  · have hsplit : 8 * a.len = 8 * i + 8 * (a.len - i) := by omega
    have hval : (a ++ b).val = a.val + b.val * 2 ^ (8 * (a.len - i)) * 2 ^ (8 * i) := by
      rw [Bytes.append_val, hsplit, pow_add]
      ring
    obtain ⟨k, hk⟩ : (256 : Nat) ∣ b.val * 2 ^ (8 * (a.len - i)) := by
      refine Dvd.dvd.mul_left ?_ b.val
      calc (256 : Nat) = 2 ^ (8 * 1) := by norm_num
      _ ∣ 2 ^ (8 * (a.len - i)) := pow_dvd_pow 2 (by omega)
    simp only [Bytes.byteAt, hval, if_pos h]
    rw [Nat.add_mul_div_right _ _ (show (0:ℕ) < 2 ^ (8 * i) by positivity), hk]
    omega
  · have hsplit : 8 * i = 8 * a.len + 8 * (i - a.len) := by omega
    have hval : (a ++ b).val / 2 ^ (8 * i) = b.val / 2 ^ (8 * (i - a.len)) := by
      rw [Bytes.append_val, hsplit, pow_add, ← Nat.div_div_eq_div_mul,
        Nat.add_mul_div_right _ _ (show (0:ℕ) < 2 ^ (8 * a.len) by positivity),
        Nat.div_eq_of_lt a.isLt, Nat.zero_add]
    simp only [Bytes.byteAt, hval, if_neg h]

theorem Bytes.byteAt_takeB (b : Bytes) (k i : Nat) (h : i < k) :
    (takeB b k).byteAt i = b.byteAt i := by
  simp only [Bytes.byteAt, takeB]
  have hsplit : 8 * k = 8 * i + 8 * (k - i) := by omega
  rw [hsplit, pow_add, Nat.mod_mul_right_div_self]
  have h256 : (256 : Nat) ∣ 2 ^ (8 * (k - i)) := by
    have : (2 : Nat) ^ 8 ∣ 2 ^ (8 * (k - i)) := pow_dvd_pow 2 (by omega)
    simpa using this
  exact Nat.mod_mod_of_dvd _ h256

theorem strlenAux_le (k : Nat) : ∀ v, strlenAux v k ≤ k := by
  induction k with
  | zero => intro v; simp [strlenAux]
  | succ k ih =>
    intro v
    simp only [strlenAux]
    split
    · omega
    · have := ih (v / 256)
      omega

theorem strlenAux_byte_ne_zero (k : Nat) :
    ∀ v i, i < strlenAux v k → v / 2 ^ (8 * i) % 256 ≠ 0 := by
  induction k with
  | zero => intro v i h; simp [strlenAux] at h
  | succ k ih =>
    intro v i h
    simp only [strlenAux] at h
    split at h
    · omega
    · rcases i with _ | i
      · simpa using ‹¬ v % 256 = 0›
      · have hi : i < strlenAux (v / 256) k := by omega
        have := ih (v / 256) i hi
        have hrw : v / 2 ^ (8 * (i + 1)) = v / 256 / 2 ^ (8 * i) := by
          rw [Nat.div_div_eq_div_mul]
          congr 1
          rw [show 8 * (i + 1) = 8 + 8 * i by ring, pow_add]
          norm_num
        rw [hrw]
        exact this

theorem spacesB_len (n : Nat) : (PadString.spacesB n).len = n := by
  induction n with
  | zero => rfl
  | succ n ih =>
    simp [PadString.spacesB, Bytes.append_len, byteB, ih]
    omega

theorem spacesB_byteAt (n i : Nat) (h : i < n) : (PadString.spacesB n).byteAt i = 32 := by
  induction n generalizing i with
  | zero => omega
  | succ n ih =>
    rcases i with _ | i
    · show (byteB 32 ++ PadString.spacesB n).byteAt 0 = 32
      have hv : (byteB 32 ++ PadString.spacesB n).val = 32 + (PadString.spacesB n).val * 256 := by
        simp [Bytes.append_val, byteB]
      simp only [Bytes.byteAt, Nat.mul_zero, pow_zero, Nat.div_one, hv]
      omega
    · have h1 : ¬ (i + 1 < (byteB 32).len) := by simp [byteB]
      simp only [PadString.spacesB, Bytes.byteAt_append, h1, if_false]
      simpa [byteB] using ih i (by omega)

/-! ## VMS date conversion (itkScancoDataManipulation.cxx) -/

/-- A calendar tuple as produced by `DecodeDate`. -/
structure DateT where
  year : Int
  month : Int
  day : Int
  hour : Int
  minute : Int
  second : Int
  millis : Int
deriving DecidableEq

def julianOffset : Nat := 2400001

def millisPerSecond : Nat := 1000

def millisPerMinute : Nat := 60 * 1000

def millisPerHour : Nat := 3600 * 1000

def millisPerDay : Nat := 3600 * 24 * 1000

/-- Conversion of a C `int` value to `uint64_t` (sign extension, i.e. the
value mod 2^64). -/
def toU64 (n : Int) : Nat := (n % 2 ^ 64).toNat

/-- Conversion of a `uint64_t` value to a C `int` (`static_cast<int>`:
low 32 bits, two's complement). -/
def toInt32 (u : Nat) : Int :=
  let v : Nat := u % 2 ^ 32
  if v < 2 ^ 31 then (v : Int) else (v : Int) - 2 ^ 32

/-- `GregorianDateFromJulian` (itkScancoDataManipulation.cxx:182): the
Fliegel / Van Flandern Julian-day-number to Gregorian conversion; C `int`
division is truncating division. -/
def GregorianDateFromJulian (julianDay : Int) : Int × Int × Int :=
  let ell0 := julianDay + 68569
  let n := Int.tdiv (4 * ell0) 146097
  let ell1 := ell0 - Int.tdiv (146097 * n + 3) 4
  let i := Int.tdiv (4000 * (ell1 + 1)) 1461001
  let ell2 := ell1 - Int.tdiv (1461 * i) 4 + 31
  let j := Int.tdiv (80 * ell2) 2447
  let day := ell2 - Int.tdiv (2447 * j) 80
  let ell3 := Int.tdiv j 11
  let month := j + 2 - 12 * ell3
  let year := 100 * (n - 49) + i + ell3
  (year, month, day)

/-- `DecodeDate` (itkScancoDataManipulation.cxx:198): decode the 8-byte VMS
timestamp (100 ns units) at the start of `b` into a calendar tuple.  The C
expression `d1 + ((uint64_t)d2 << 32)` converts both signed halves into
`uint64_t` arithmetic, reproduced here mod 2^64. -/
def DecodeDate (b : Bytes) : DateT :=
  let d1 := DecodeInt b 0
  let d2 := DecodeInt b 4
  let tVMS : Nat := (toU64 d2 * 2 ^ 32 % 2 ^ 64 + toU64 d1) % 2 ^ 64
  let time0 : Nat := (tVMS / 10000 + julianOffset * millisPerDay) % 2 ^ 64
  let julianDay : Int := toInt32 (time0 / millisPerDay)
  let time1 : Nat := (time0 + (2 ^ 64 - millisPerDay * toU64 julianDay % 2 ^ 64)) % 2 ^ 64
  let ymd := GregorianDateFromJulian julianDay
  let hour : Int := toInt32 (time1 / millisPerHour)
  let time2 : Nat := (time1 + (2 ^ 64 - millisPerHour * toU64 hour % 2 ^ 64)) % 2 ^ 64
  let minute : Int := toInt32 (time2 / millisPerMinute)
  let time3 : Nat := (time2 + (2 ^ 64 - millisPerMinute * toU64 minute % 2 ^ 64)) % 2 ^ 64
  let second : Int := toInt32 (time3 / millisPerSecond)
  let time4 : Nat := (time3 + (2 ^ 64 - millisPerSecond * toU64 second % 2 ^ 64)) % 2 ^ 64
  ⟨ymd.1, ymd.2.1, ymd.2.2, hour, minute, second, toInt32 time4⟩

/-- `julianDayFromDate` (itkScancoDataManipulation.cxx:273).  The C body is
`(int)(365.25*(year+4716)) + (int)(30.6001*(month+1)) + day + b - 1524.5`
assigned to `int`.  `365.25*(year+4716)` is exact in double arithmetic (a
multiple of 0.25 below 2^23), so its truncation is the division by 4 below;
`(int)(30.6001*(month+1))` equals the rational truncation below for the
adjusted `month+1` in [4,15] (the products stay at least 4e-4 away from
integers while the double rounding error is below 1e-10); and the final
`- 1524.5` on a positive integer-valued double truncates to `- 1525`. -/
def julianDayFromDate (year month day : Int) : Int :=
  let y := if month ≤ 2 then year - 1 else year
  let m := if month ≤ 2 then month + 12 else month
  let a := Int.tdiv y 100
  let b := 2 - a + Int.tdiv a 4
  Int.tdiv (1461 * (y + 4716)) 4 + Int.tdiv (306001 * (m + 1)) 10000 + day + b - 1525

/-- `EncodeDateFromString` (itkScancoDataManipulation.cxx:288) composed with
the `DD-MMM-YYYY HH:MM:SS.mmm` formatting of `DateToString`
(itkScancoDataManipulation.cxx:223), at the calendar-tuple level: for a
valid tuple (day ≤ 31, 1 ≤ month ≤ 12, year ≤ 9999, hour/minute/second in
range, millis ≤ 999) the formatted string parses back to the same numbers
and the month abbreviation looks up to the same index in `monthIndex`, so
the composition is the arithmetic below.  The result is the 8 timestamp
bytes stored by the two `EncodeInt` calls. -/
def EncodeDate (d : DateT) : Bytes :=
  let timestamp : Nat :=
    (toU64 d.hour * millisPerHour % 2 ^ 64 + toU64 d.minute * millisPerMinute % 2 ^ 64 +
      toU64 d.second * millisPerSecond % 2 ^ 64 + toU64 d.millis) % 2 ^ 64
  let julianDay : Int := julianDayFromDate d.year d.month d.day
  let time : Nat := (toU64 julianDay * millisPerDay % 2 ^ 64 + timestamp) % 2 ^ 64
  let tVMS : Nat := (time + (2 ^ 64 - julianOffset * millisPerDay)) % 2 ^ 64 * 10000 % 2 ^ 64
  EncodeInt (toInt32 tVMS) ++ EncodeInt (toInt32 (tVMS / 2 ^ 32))

/-! ## Write dispatch (itkScancoImageIO.cxx) -/

def mhaVal : Nat := packBytes [46, 109, 104, 97]

def mhdVal : Nat := packBytes [46, 109, 104, 100]

/-- `ScancoImageIO::CanWriteFile` (itkScancoImageIO.cxx:958): true exactly
when the non-empty filename ends in ".mha" or ".mhd"
(`rfind(s) == length()-4` is the suffix test). -/
def CanWriteFile (name : Bytes) : Bool :=
  if name.len = 0 then false
  else if 4 ≤ name.len ∧ name.val / 2 ^ (8 * (name.len - 4)) = mhaVal then true
  else if 4 ≤ name.len ∧ name.val / 2 ^ (8 * (name.len - 4)) = mhdVal then true
  else false

end Scanco


namespace Scanco

/-! ## Claim C2: the version detector's AIM v020 arm -/

/-- C2 (code_bug): the refactored free `CheckVersion`
(itkScancoDataManipulation.cxx:46) classifies the all-zero 16-byte header
as AIM v020 (return 2) even though its two leading little-endian int32s
are 0 and 0, not 20 and 140.  Its own doc comment
(itkScancoDataManipulation.h:95, "0 if unrecognized") and the member
`ScancoImageIO::CheckVersion` (itkScancoImageIO.cxx:77) yield 0
(unrecognized) on the same input. -/
theorem c2_checkVersion_drops_aim020_guard :
    CheckVersion (zerosB 16) = 2 ∧
    DecodeInt (zerosB 16) 0 = 0 ∧ DecodeInt (zerosB 16) 4 = 0 ∧
    imageIOCheckVersion (zerosB 16) = 0 := by decide

/-! ## Claim C3: the writer's filename check -/

/-- C3 (code_bug): `ScancoImageIO::CanWriteFile` (itkScancoImageIO.cxx:958)
rejects the filenames "out.isq" and "out.aim" and accepts "out.mha"; the
".mha"/".mhd" suffix tests are left over from MetaImageIO and contradict
the registered write extensions (itkScancoImageIO.cxx:48) and the
expectations of itkScancoImageIOTest2. -/
theorem c3_canWriteFile_wrong_extensions :
    CanWriteFile (mkBytes [111, 117, 116, 46, 105, 115, 113]) = false ∧
    CanWriteFile (mkBytes [111, 117, 116, 46, 97, 105, 109]) = false ∧
    CanWriteFile (mkBytes [111, 117, 116, 46, 109, 104, 97]) = true := by decide

/-! ## Claim C6: the VMS date round trip -/

/-- C6 (code_bug): for the valid calendar date 15-JAN-2020 12:02:48.123,
decoding the VMS timestamp produced by the encoder yields 14-JAN-2020
12:02:48.123 — one calendar day early.  `julianDayFromDate` truncates the
trailing `- 1524.5` of the Fliegel / Van Flandern formula and so returns
the Julian day number minus one, while `DecodeDate` interprets its day
count as a true Julian day number (it maps the VMS epoch to 1858-11-17). -/
theorem c6_decode_encode_loses_a_day :
    DecodeDate (EncodeDate ⟨2020, 1, 15, 12, 2, 48, 123⟩) = ⟨2020, 1, 14, 12, 2, 48, 123⟩ ∧
    DecodeDate (EncodeDate ⟨2020, 1, 15, 12, 2, 48, 123⟩) ≠ ⟨2020, 1, 15, 12, 2, 48, 123⟩ := by
  decide

/-! ## Claim C8: PadString overflow -/

/-- Length of the `PadString` output. -/
theorem padString_len (src : Bytes) (n : Nat) :
    (PadString src n).len = min (strlenB src) n + n := by
  have hm : min (strlenB src) n ≤ src.len :=
    le_trans (Nat.min_le_left _ _) (strlenAux_le _ _)
  simp [PadString, Bytes.append_len, takeB, spacesB_len, Nat.min_eq_left hm]

/-- C8 (corrected): `PadString` (itkScancoDataManipulation.cxx:340) stores
`min(strlen(source), n) + n` bytes, none of which is a null terminator;
that exceeds `n` whenever the source is non-empty and `n ≥ 1` (for
`n = 0` it stores exactly `0 = n` bytes, see the counterexample); and
padding a 16-character source into a 16-byte field stores 32 bytes. -/
theorem c8_padString_writes (src : Bytes) (n : Nat) :
    (PadString src n).len = min (strlenB src) n + n ∧
    (∀ i, i < (PadString src n).len → (PadString src n).byteAt i ≠ 0) ∧
    (1 ≤ strlenB src → 1 ≤ n → n < (PadString src n).len) ∧
    (strlenB src = 16 → n = 16 → (PadString src n).len = 32) := by
  have hm : min (strlenB src) n ≤ src.len :=
    le_trans (Nat.min_le_left _ _) (strlenAux_le _ _)
  have hlen := padString_len src n
  refine ⟨hlen, ?_, ?_, ?_⟩
  · intro i hi
    rw [hlen] at hi
    have htl : (takeB src (min (strlenB src) n)).len = min (strlenB src) n := by
      simp [takeB, Nat.min_eq_left hm]
    rw [PadString, Bytes.byteAt_append, htl]
    by_cases hcase : i < min (strlenB src) n
    · rw [if_pos hcase, Bytes.byteAt_takeB _ _ _ hcase]
      have hslen : i < strlenB src := lt_of_lt_of_le hcase (Nat.min_le_left _ _)
      exact strlenAux_byte_ne_zero _ _ _ hslen
    · rw [if_neg hcase, spacesB_byteAt _ _ (by omega)]
      norm_num
  · intro h1 h2
    have : 1 ≤ min (strlenB src) n := le_min h1 h2
    omega
  · intro h1 h2
    rw [hlen, h1, h2]
    omega

/-- Closed witness for `c8_padString_writes`: a 16-character source padded to
16 stores 32 non-null bytes, exceeding the 16-byte field. -/
theorem c8_padString_writes_witness :
    strlenB (mkBytes (List.replicate 16 65)) = 16 ∧
    (PadString (mkBytes (List.replicate 16 65)) 16).len = 32 ∧
    16 < (PadString (mkBytes (List.replicate 16 65)) 16).len :=
  ⟨by decide,
   (c8_padString_writes (mkBytes (List.replicate 16 65)) 16).2.2.2 (by decide) rfl,
   by
     have h := (c8_padString_writes (mkBytes (List.replicate 16 65)) 16).2.2.1 (by decide) (by norm_num)
     exact h⟩

/-- C8 counterexample: with `n = 0` and a non-empty source, `PadString`
stores 0 bytes, not more than `n`: the claim's "more than n bytes whenever
the source is non-empty" fails in the degenerate case `n = 0`. -/
theorem c8_padString_zero_len_counterexample :
    strlenB (mkBytes [65]) = 1 ∧ (PadString (mkBytes [65]) 0).len = 0 := by decide

end Scanco
namespace Scanco

/-! ## SCANCO float and double decoding -/

/-- The 32-bit pattern assembled by `DecodeFloat`'s byte reorder
`(cp[0]<<16) | (cp[1]<<24) | cp[2] | (cp[3]<<8)`. -/
def floatWordAt (b : Bytes) (off : Nat) : Nat :=
  b.byteAt off * 2 ^ 16 + b.byteAt (off + 1) * 2 ^ 24 + b.byteAt (off + 2) +
    b.byteAt (off + 3) * 2 ^ 8

/-- The exact rational value of an IEEE-754 binary32 bit pattern.  Patterns
with exponent 255 (inf/NaN) have no rational value and are outside the
model (they yield the junk value 0 here; see `finiteF32`). -/
def f32ToQ (i : Nat) : Q :=
  let s : Int := if i / 2 ^ 31 % 2 = 1 then -1 else 1
  let e : Nat := i / 2 ^ 23 % 256
  let m : Nat := i % 2 ^ 23
  if e = 0 then qmk (s * m) (2 ^ 149)
  else if e = 255 then ⟨0, 1⟩
  else if e ≤ 149 then qmk (s * (2 ^ 23 + m)) (2 ^ (150 - e))
  else qmk (s * (2 ^ 23 + m) * 2 ^ (e - 150)) 1

/-- The scrambled word at `off` encodes a finite (non inf/NaN) float. -/
def finiteF32 (b : Bytes) (off : Nat) : Prop := floatWordAt b off / 2 ^ 23 % 256 ≠ 255

instance (b : Bytes) (off : Nat) : Decidable (finiteF32 b off) := by
  unfold finiteF32
  infer_instance

/-- `DecodeFloat` (itkScancoDataManipulation.cxx:99): reorder the four bytes
into an IEEE binary32 pattern and multiply its value by 0.25.  Exact for
finite encodings. -/
def DecodeFloat (b : Bytes) (off : Nat) : Q := qmul (qmk 1 4) (f32ToQ (floatWordAt b off))

/-- The 64-bit pattern assembled by `DecodeDouble`: the high word from bytes
0..3 and the low word from bytes 4..7, each with the float reorder. -/
def doubleWordAt (b : Bytes) (off : Nat) : Nat :=
  let l1 : Nat := b.byteAt off * 2 ^ 16 + b.byteAt (off + 1) * 2 ^ 24 + b.byteAt (off + 2) +
    b.byteAt (off + 3) * 2 ^ 8
  let l2 : Nat := b.byteAt (off + 4) * 2 ^ 16 + b.byteAt (off + 5) * 2 ^ 24 +
    b.byteAt (off + 6) + b.byteAt (off + 7) * 2 ^ 8
  l1 * 2 ^ 32 + l2

/-- The exact rational value of an IEEE-754 binary64 bit pattern (exponent
2047 encodings are inf/NaN and outside the model). -/
def f64ToQ (i : Nat) : Q :=
  let s : Int := if i / 2 ^ 63 % 2 = 1 then -1 else 1
  let e : Nat := i / 2 ^ 52 % 2048
  let m : Nat := i % 2 ^ 52
  if e = 0 then qmk (s * m) (2 ^ 1074)
  else if e = 2047 then ⟨0, 1⟩
  else if e ≤ 1074 then qmk (s * (2 ^ 52 + m)) (2 ^ (1075 - e))
  else qmk (s * (2 ^ 52 + m) * 2 ^ (e - 1075)) 1

/-- The scrambled 8 bytes at `off` encode a finite double. -/
def finiteF64 (b : Bytes) (off : Nat) : Prop := doubleWordAt b off / 2 ^ 52 % 2048 ≠ 2047

instance (b : Bytes) (off : Nat) : Decidable (finiteF64 b off) := by
  unfold finiteF64
  infer_instance

/-- `DecodeDouble` (itkScancoDataManipulation.cxx:132): assemble the 64-bit
pattern and multiply its IEEE value by 0.25.  Exact for finite encodings. -/
def DecodeDouble (b : Bytes) (off : Nat) : Q := qmul (f64ToQ (doubleWordAt b off)) (qmk 1 4)

/-! ## AIM pre-header (claim C9) -/

/-- `AIMHeaderIO::ReadPreHeader` (itkAIMHeaderIO.cxx:242), on the pre-header
bytes `b`.  With 4-byte fields (v020) the stored pre-header length must
equal `sizeof(AIMPreHeaderV020) = 20`; with 8-byte fields (v030) it must
equal `sizeof(AIMPreHeaderV030) = 40`; otherwise the function returns -1
(modelled `none`) before reading the image-struct and processing-log
lengths, and `AIMHeaderIO::ReadHeader` (itkAIMHeaderIO.cxx:143) throws.
The lengths are stored into `unsigned long` members, hence `toU64`. -/
def aimReadPreHeader (intSize : Nat) (b : Bytes) : Option (Nat × Nat × Nat) :=
  match intSize with
  | 4 =>
    let pre := toU64 (DecodeInt b 0)
    if pre ≠ 20 then none
    else some (pre, toU64 (DecodeInt b 4), toU64 (DecodeInt b 8))
  | 8 =>
    let pre := toU64 (DecodeInt64 b 0)
    if pre ≠ 40 then none
    else some (pre, toU64 (DecodeInt64 b 8), toU64 (DecodeInt64 b 16))
  | _ => none

/-- C9 (confirmed): reading the AIM pre-header fails exactly when the stored
pre_header_length differs from 20 (v020) respectively 40 (v030); on
failure no further header fields are produced and the caller throws.  The
spec describes the pre-header only as five length fields with no
constraint on the stored length. -/
theorem c9_preheader_length_guard (b : Bytes) :
    (aimReadPreHeader 4 b = none ↔ DecodeInt b 0 ≠ 20) ∧
    (aimReadPreHeader 8 b = none ↔ DecodeInt64 b 0 ≠ 40) := by
  have hu32 : b.val / 2 ^ (8 * 0) % 2 ^ 32 < 2 ^ 32 := Nat.mod_lt _ (by norm_num)
  have hu64 : b.val / 2 ^ (8 * 0) % 2 ^ 64 < 2 ^ 64 := Nat.mod_lt _ (by norm_num)
  have h32 : -(2 ^ 31) ≤ DecodeInt b 0 ∧ DecodeInt b 0 < 2 ^ 31 := by
    simp only [DecodeInt]
    split <;> omega
  have h64 : -(2 ^ 63) ≤ DecodeInt64 b 0 ∧ DecodeInt64 b 0 < 2 ^ 63 := by
    simp only [DecodeInt64]
    split <;> omega
  have k32 : toU64 (DecodeInt b 0) = 20 ↔ DecodeInt b 0 = 20 := by
    unfold toU64
    omega
  have k64 : toU64 (DecodeInt64 b 0) = 40 ↔ DecodeInt64 b 0 = 40 := by
    unfold toU64
    omega
  constructor
  · show (if toU64 (DecodeInt b 0) ≠ 20 then none else
      some (toU64 (DecodeInt b 0), toU64 (DecodeInt b 4), toU64 (DecodeInt b 8))) = none ↔ _
    split
    · simp_all
    · simp_all
  · show (if toU64 (DecodeInt64 b 0) ≠ 40 then none else
      some (toU64 (DecodeInt64 b 0), toU64 (DecodeInt64 b 8), toU64 (DecodeInt64 b 16))) = none ↔ _
    split
    · simp_all
    · simp_all

end Scanco
namespace Scanco

/-! ## AIM image-struct headers (claims C5 and C10) -/

/-- The `itkScancoPixelData` fields filled by the AIM image-struct readers
(dimensions, origin, spacing, component type).  The C origin field is
`float[3]`; the model keeps the exact product. -/
structure PixelData where
  dimensions : Int × Int × Int
  origin : Q × Q × Q
  spacing : Q × Q × Q
  componentType : Int
deriving DecidableEq

/-- `AIMHeaderIO::ReadImgStructHeader(AIMV020StructHeader*)`
(itkAIMHeaderIO.cxx:293) on the 140-byte packed struct: `m_Type` at offset
20, `m_Position` at 24+4i, `m_Dimension` at 36+4i, `m_ElementSize` at
108+4i.  Element spacing decodes as a SCANCO float; a zero spacing becomes
1.0; each origin component is the decoded position times the fixed
spacing. -/
def aimReadImgStructHeaderV020 (b : Bytes) : PixelData :=
  let spacingAt : Nat → Q := fun i =>
    let s := DecodeFloat b (108 + 4 * i)
    if s = qofInt 0 then qofInt 1 else s
  let originAt : Nat → Q := fun i => qmul (qofInt (DecodeInt b (24 + 4 * i))) (spacingAt i)
  { dimensions := (DecodeInt b 36, DecodeInt b 40, DecodeInt b 44)
    origin := (originAt 0, originAt 1, originAt 2)
    spacing := (spacingAt 0, spacingAt 1, spacingAt 2)
    componentType := DecodeInt b 20 }

/-- `AIMHeaderIO::ReadImgStructHeader(AIMV030StructHeader*)`
(itkAIMHeaderIO.cxx:327) on the 224-byte packed struct: `m_Type` at offset
12, `m_Position` at 16+8i, `m_Dimension` at 40+8i, `m_ElementSize` at
184+8i.  Each element spacing is `1e-6 * DecodeInt(...)` — the 32-bit
decoder applied to the first four bytes of the 8-byte field (1e-6 is
modelled by the exact rational); a zero spacing becomes 1.0; each origin
component is `DecodeInt` of the position field times the fixed spacing. -/
def aimReadImgStructHeaderV030 (b : Bytes) : PixelData :=
  let spacingAt : Nat → Q := fun i =>
    let s := qmul (qmk 1 1000000) (qofInt (DecodeInt b (184 + 8 * i)))
    if s = qofInt 0 then qofInt 1 else s
  let originAt : Nat → Q := fun i => qmul (qofInt (DecodeInt b (16 + 8 * i))) (spacingAt i)
  { dimensions := (DecodeInt b 40, DecodeInt b 48, DecodeInt b 56)
    origin := (originAt 0, originAt 1, originAt 2)
    spacing := (spacingAt 0, spacingAt 1, spacingAt 2)
    componentType := DecodeInt b 12 }

/-- A v030 struct whose first element-size field stores the 64-bit value
2^32 (micrometres): bytes 00 00 00 00 01 00 00 00 at offset 184. -/
def c5Struct : Bytes := zerosB 184 ++ mkBytes [0, 0, 0, 0, 1, 0, 0, 0] ++ zerosB 32

/-- C5 (code_bug): the v030 struct reader decodes each element-size with the
32-bit `DecodeInt` instead of a 64-bit decode.  For a stored element size
of 2^32 micrometres the low 32 bits are 0, so the spacing falls back to
1.0 instead of the 4294.967296 mm that the 64-bit value dictates — even
though the matching writer `WriteStructHeaderV030`
(itkAIMHeaderIO.cxx:580) encodes the same field with `EncodeInt64` and
the reader's own comment says "element spacing is a 64-bit integer". -/
theorem c5_v030_element_size_truncated :
    (aimReadImgStructHeaderV030 c5Struct).spacing.1 = qofInt 1 ∧
    DecodeInt64 c5Struct 184 = 2 ^ 32 ∧
    DecodeInt c5Struct 184 = 0 ∧
    qmul (qmk 1 1000000) (qofInt (DecodeInt64 c5Struct 184)) ≠ qofInt 1 := by decide

/-- C10 (corrected): in both AIM image-struct readers every origin
component equals the 32-bit `DecodeInt` of the position field times the
element spacing of that axis after zero spacings were replaced by 1.0
(v020: SCANCO-float element sizes at offsets 108+4i, positions at 24+4i;
v030: 1e-6-scaled integer element sizes at 184+8i, positions at 16+8i).
In v030 the position fields are 8 bytes, so the decode keeps only the low
four bytes, sign-extended — not the stored 64-bit position value the claim
describes (see the counterexample).  The ISQ readers set the origin to
zero instead (itkISQHeaderIO.cxx:308, itkScancoImageIO.cxx:416), so a
nonzero AIM position makes the origin reflect the cropping. -/
theorem c10_aim_origin_is_position_times_spacing (b : Bytes) :
    ((aimReadImgStructHeaderV020 b).origin =
      (qmul (qofInt (DecodeInt b 24))
        (if DecodeFloat b 108 = qofInt 0 then qofInt 1 else DecodeFloat b 108),
       qmul (qofInt (DecodeInt b 28))
        (if DecodeFloat b 112 = qofInt 0 then qofInt 1 else DecodeFloat b 112),
       qmul (qofInt (DecodeInt b 32))
        (if DecodeFloat b 116 = qofInt 0 then qofInt 1 else DecodeFloat b 116)) ∧
     (aimReadImgStructHeaderV020 b).spacing =
      (if DecodeFloat b 108 = qofInt 0 then qofInt 1 else DecodeFloat b 108,
       if DecodeFloat b 112 = qofInt 0 then qofInt 1 else DecodeFloat b 112,
       if DecodeFloat b 116 = qofInt 0 then qofInt 1 else DecodeFloat b 116)) ∧
    ((aimReadImgStructHeaderV030 b).origin =
      (qmul (qofInt (DecodeInt b 16))
        (if qmul (qmk 1 1000000) (qofInt (DecodeInt b 184)) = qofInt 0 then qofInt 1
         else qmul (qmk 1 1000000) (qofInt (DecodeInt b 184))),
       qmul (qofInt (DecodeInt b 24))
        (if qmul (qmk 1 1000000) (qofInt (DecodeInt b 192)) = qofInt 0 then qofInt 1
         else qmul (qmk 1 1000000) (qofInt (DecodeInt b 192))),
       qmul (qofInt (DecodeInt b 32))
        (if qmul (qmk 1 1000000) (qofInt (DecodeInt b 200)) = qofInt 0 then qofInt 1
         else qmul (qmk 1 1000000) (qofInt (DecodeInt b 200)))) ∧
     (aimReadImgStructHeaderV030 b).spacing =
      (if qmul (qmk 1 1000000) (qofInt (DecodeInt b 184)) = qofInt 0 then qofInt 1
       else qmul (qmk 1 1000000) (qofInt (DecodeInt b 184)),
       if qmul (qmk 1 1000000) (qofInt (DecodeInt b 192)) = qofInt 0 then qofInt 1
       else qmul (qmk 1 1000000) (qofInt (DecodeInt b 192)),
       if qmul (qmk 1 1000000) (qofInt (DecodeInt b 200)) = qofInt 0 then qofInt 1
       else qmul (qmk 1 1000000) (qofInt (DecodeInt b 200)))) := by
  refine ⟨⟨rfl, rfl⟩, ⟨?_, ?_⟩⟩ <;> norm_num [aimReadImgStructHeaderV030]

/-- A 224-byte v030 struct whose first position field stores the 64-bit
value 2^31: bytes 00 00 00 80 00 00 00 00 at offset 16 (element sizes all
zero, so every spacing falls back to 1.0). -/
def c10Struct : Bytes := zerosB 16 ++ mkBytes [0, 0, 0, 128, 0, 0, 0, 0] ++ zerosB 200

/-- C10 counterexample: the v030 reader decodes the 8-byte position field
with the signed 32-bit `DecodeInt` (itkAIMHeaderIO.cxx:353), so a stored
position of 2^31 yields origin -2^31 * spacing, not the stored position
value 2^31 times the spacing as the claim states — the same 32-bit
truncation class as C5. -/
theorem c10_v030_position_truncated_counterexample :
    (aimReadImgStructHeaderV030 c10Struct).origin.1 = qofInt (-(2 ^ 31)) ∧
    (aimReadImgStructHeaderV030 c10Struct).spacing.1 = qofInt 1 ∧
    DecodeInt64 c10Struct 16 = 2 ^ 31 ∧
    qmul (qofInt (DecodeInt64 c10Struct 16)) (qofInt 1) ≠ qofInt (-(2 ^ 31)) := by
  decide

end Scanco
namespace Scanco

/-! ## The ISQ read path of the facade (claim C1)

Model of `ScancoImageIO::InitializeHeader`, `ScancoImageIO::ReadISQHeader`
and the ISQ arm of `ScancoImageIO::ReadImageInformation`
(itkScancoImageIO.cxx:219, 283, 827).  Dates are carried as calendar tuples
(the sprintf into `CreationDate` keeps exactly the listed quantities, with
day/hour/minute/second mod 100, year mod 10000, millis mod 1000 and months
outside 1..12 clamped to 0).
-/

/-- The in-memory header state of `ScancoImageIO` touched by the ISQ read
path (member names follow the source). -/
structure ScancoHeader where
  version : Bytes
  patientName : Bytes
  patientIndex : Int
  scannerID : Int
  creationDate : DateT
  modificationDate : DateT
  scanDimensionsPixels : Int × Int × Int
  scanDimensionsPhysical : Q × Q × Q
  dimensions : Int × Int × Int
  spacing : Q × Q × Q
  origin : Q × Q × Q
  sliceThickness : Q
  sliceIncrement : Q
  startPosition : Q
  endPosition : Q
  zPosition : Q
  dataRange : Q × Q
  muScaling : Q
  numberOfSamples : Int
  numberOfProjections : Int
  scanDistance : Q
  sampleTime : Q
  scannerType : Int
  measurementIndex : Int
  site : Int
  reconstructionAlg : Int
  referenceLine : Q
  energy : Q
  intensity : Q
  rescaleType : Int
  rescaleUnits : Bytes
  calibrationData : Bytes
  rescaleSlope : Q
  rescaleIntercept : Q
  muWater : Q
  compression : Int
deriving DecidableEq

/-- `ScancoImageIO::InitializeHeader` (itkScancoImageIO.cxx:219): all fields
zeroed except `MuScaling = 1.0` and `RescaleSlope = 1.0`. -/
def initHeaderState : ScancoHeader where
  version := zerosB 0
  patientName := zerosB 0
  patientIndex := 0
  scannerID := 0
  creationDate := ⟨0, 0, 0, 0, 0, 0, 0⟩
  modificationDate := ⟨0, 0, 0, 0, 0, 0, 0⟩
  scanDimensionsPixels := (0, 0, 0)
  scanDimensionsPhysical := (qofInt 0, qofInt 0, qofInt 0)
  dimensions := (0, 0, 0)
  spacing := (qofInt 0, qofInt 0, qofInt 0)
  origin := (qofInt 0, qofInt 0, qofInt 0)
  sliceThickness := qofInt 0
  sliceIncrement := qofInt 0
  startPosition := qofInt 0
  endPosition := qofInt 0
  zPosition := qofInt 0
  dataRange := (qofInt 0, qofInt 0)
  muScaling := qofInt 1
  numberOfSamples := 0
  numberOfProjections := 0
  scanDistance := qofInt 0
  sampleTime := qofInt 0
  scannerType := 0
  measurementIndex := 0
  site := 0
  reconstructionAlg := 0
  referenceLine := qofInt 0
  energy := qofInt 0
  intensity := qofInt 0
  rescaleType := 0
  rescaleUnits := zerosB 0
  calibrationData := zerosB 0
  rescaleSlope := qofInt 1
  rescaleIntercept := qofInt 0
  muWater := qofInt 0
  compression := 0

/-- The 16 bytes at `off` of `b` as a packed value (for strncmp tests). -/
def sliceVal16 (b : Bytes) (off : Nat) : Nat := b.val / 2 ^ (8 * off) % 2 ^ 128

/-- ASCII bytes of the 16-character extended-header marker MultiHeader. -/
def multiHeaderVal : Nat :=
  packBytes [77, 117, 108, 116, 105, 72, 101, 97, 100, 101, 114, 32, 32, 32, 32, 32]

/-- ASCII bytes of the 16-character directory entry name Calibration. -/
def calibrationVal : Nat :=
  packBytes [67, 97, 108, 105, 98, 114, 97, 116, 105, 111, 110, 32, 32, 32, 32, 32]

/-- The directory-entry loop of the extended-header decode
(itkScancoImageIO.cxx:454-468): up to four 128-byte entries at `h`; an
entry named Calibration records `(blockOffset, hsize)`; the loop continues
after a match and stops early when the running total exceeds `headerSize`.
Sizes live in `unsigned long` variables. -/
def extScanAux (raw : Bytes) (headerSize h : Nat) :
    Nat → Nat → Option (Nat × Nat) → Nat → Option (Nat × Nat)
  | _, _, cal, 0 => cal
  | i, hskip, cal, fuel + 1 =>
    let hsize : Nat := toU64 (DecodeInt raw (h + i * 128 + 24))
    if (1 + hskip + hsize) * 512 % 2 ^ 64 > headerSize then cal
    else
      let cal2 := if sliceVal16 raw (h + i * 128 + 8) = calibrationVal then
        some ((1 + hskip) * 512, hsize) else cal
      extScanAux raw headerSize h (i + 1) (hskip + hsize) cal2 fuel

/-- `ScancoImageIO::ReadISQHeader` (itkScancoImageIO.cxx:283) on a whole
file `file` of which `bytesRead` bytes (at most 512) were already read.
Returns `none` where the C function returns 0 (the file too short for the
main block or for the extended header). -/
def ReadISQHeader (st : ScancoHeader) (file : Bytes) (bytesRead : Nat) : Option ScancoHeader :=
  if bytesRead < 512 then none
  else
    let version := StripString (takeB file 16) 16
    let dataType := DecodeInt file 16
    let patientIndex := DecodeInt file 28
    let scannerID := DecodeInt file 32
    let rawDate := DecodeDate (dropB file 36)
    let pixdim : Int × Int × Int := (DecodeInt file 44, DecodeInt file 48, DecodeInt file 52)
    let physdim : Int × Int × Int := (DecodeInt file 56, DecodeInt file 60, DecodeInt file 64)
    let isRAD := dataType = 9 ∨ physdim.2.2 = 0
    let milli : Q := qmk 1 1000
    let st1 : ScancoHeader :=
      if isRAD then
        { st with
          version, patientIndex, scannerID
          measurementIndex := DecodeInt file 68
          dataRange := (qofInt (DecodeInt file 72), qofInt (DecodeInt file 76))
          muScaling := qofInt (DecodeInt file 80)
          patientName := StripString (dropB file 84) 40
          zPosition := qmul (qofInt (DecodeInt file 124)) milli
          sampleTime := qmul (qofInt (DecodeInt file 132)) milli
          energy := qmul (qofInt (DecodeInt file 136)) milli
          intensity := qmul (qofInt (DecodeInt file 140)) milli
          referenceLine := qmul (qofInt (DecodeInt file 144)) milli
          startPosition := qmul (qofInt (DecodeInt file 148)) milli
          endPosition := qmul (qofInt (DecodeInt file 152)) milli }
      else
        let startPosition := qmul (qofInt (DecodeInt file 76)) milli
        { st with
          version, patientIndex, scannerID, startPosition
          sliceThickness := qmul (qofInt (DecodeInt file 68)) milli
          sliceIncrement := qmul (qofInt (DecodeInt file 72)) milli
          endPosition := qadd startPosition
            (qdivQ (qmul (qmul (qofInt physdim.2.2) milli) (qofInt (pixdim.2.2 - 1)))
              (qofInt pixdim.2.2))
          dataRange := (qofInt (DecodeInt file 80), qofInt (DecodeInt file 84))
          muScaling := qofInt (DecodeInt file 88)
          numberOfSamples := DecodeInt file 92
          numberOfProjections := DecodeInt file 96
          scanDistance := qmul (qofInt (DecodeInt file 100)) milli
          scannerType := DecodeInt file 104
          sampleTime := qmul (qofInt (DecodeInt file 108)) milli
          measurementIndex := DecodeInt file 112
          site := DecodeInt file 116
          referenceLine := qmul (qofInt (DecodeInt file 120)) milli
          reconstructionAlg := DecodeInt file 124
          patientName := StripString (dropB file 128) 40
          energy := qmul (qofInt (DecodeInt file 168)) milli
          intensity := qmul (qofInt (DecodeInt file 172)) milli }
    let dataOffset := DecodeInt file 508
    -- fix SliceThickness and SliceIncrement if they were truncated
    let st2 : ScancoHeader :=
      if physdim.2.2 ≠ 0 then
        let computedSpacing := qdivQ (qmul (qofInt physdim.2.2) milli) (qofInt pixdim.2.2)
        let stA := if qlt (qabs (qsub computedSpacing st1.sliceThickness)) (qmk 11 10000) then
          { st1 with sliceThickness := computedSpacing } else st1
        if qlt (qabs (qsub computedSpacing stA.sliceIncrement)) (qmk 11 10000) then
          { stA with sliceIncrement := computedSpacing } else stA
      else st1
    -- date to string (kept as the clamped tuple)
    let month := if rawDate.month > 12 ∨ rawDate.month < 1 then 0 else rawDate.month
    let dateStr : DateT := ⟨rawDate.year % 10000, month, rawDate.day % 100, rawDate.hour % 100,
      rawDate.minute % 100, rawDate.second % 100, rawDate.millis % 1000⟩
    -- dimension sanity check
    let clampPix : Int → Int := fun p => if p < 1 then 1 else p
    let clampPhys : Int → Int := fun p => if p = 0 then 1 else p
    let physScale : Q := if isRAD then qmk 1 1000000 else qmk 1 1000
    let pix' := (clampPix pixdim.1, clampPix pixdim.2.1, clampPix pixdim.2.2)
    let phys' := (clampPhys physdim.1, clampPhys physdim.2.1, clampPhys physdim.2.2)
    let spacingAt : Int → Int → Q := fun ph px => qdivQ (qmul (qofInt ph) physScale) (qofInt px)
    let st3 : ScancoHeader :=
      { st2 with
        creationDate := dateStr
        modificationDate := dateStr
        scanDimensionsPixels := pixdim
        scanDimensionsPhysical :=
          (qmul (qofInt physdim.1) physScale, qmul (qofInt physdim.2.1) physScale,
            qmul (qofInt physdim.2.2) physScale)
        dimensions := (pix'.1 - 1, pix'.2.1 - 1, pix'.2.2 - 1)
        spacing := (spacingAt phys'.1 pix'.1, spacingAt phys'.2.1 pix'.2.1,
          if isRAD then qofInt 1 else spacingAt phys'.2.2 pix'.2.2)
        origin := (qofInt 0, qofInt 0, qofInt 0) }
    -- total header size and the extended header
    let headerSize : Nat := toU64 (dataOffset + 1) * 512 % 2 ^ 64
    if headerSize > bytesRead ∧ file.len < headerSize then none
    else
      let raw := takeB file headerSize
      let st4 : ScancoHeader :=
        if 2048 ≤ headerSize then
          let multi := sliceVal16 raw (512 + 8) = multiHeaderVal
          let h : Nat := if multi then 1024 else 512
          let hskip : Nat := if multi then 2 else 1
          match extScanAux raw headerSize h 0 hskip none 4 with
          | none => st3
          | some (calOff, hsize) =>
            let calHeaderSize : Int := toInt32 (hsize * 512 % 2 ^ 64)
            if 1024 ≤ calHeaderSize then
              { st3 with
                calibrationData := StripString (dropB raw (calOff + 28)) 64
                rescaleType := DecodeInt raw (calOff + 632)
                rescaleUnits := StripString (dropB raw (calOff + 648)) 16
                rescaleSlope := DecodeDouble raw (calOff + 664)
                rescaleIntercept := DecodeDouble raw (calOff + 672)
                muWater := DecodeDouble raw (calOff + 688) }
            else st3
        else st3
      -- include conversion to linear attenuation coefficient in the rescaling
      let st5 : ScancoHeader :=
        if st4.muScaling ≠ qofInt 0 then
          { st4 with rescaleSlope := qdivQ st4.rescaleSlope st4.muScaling }
        else st4
      some st5

/-- The ISQ arm of `ScancoImageIO::ReadImageInformation`
(itkScancoImageIO.cxx:827): initialize the header, read the first 512-byte
block, dispatch on the member `CheckVersion`, and run `ReadISQHeader`.
After the codec returns, nothing further happens: the Hounsfield override
at itkScancoImageIO.cxx:873-881 is commented out.  The AIM arms
(fileType 2 and 3) are outside this definition, which therefore yields
`none` for them; files shorter than one block are also out of the model
(the C code would consult uninitialized buffer bytes). -/
def ReadImageInformationISQ (file : Bytes) : Option ScancoHeader :=
  if 512 ≤ file.len ∧ imageIOCheckVersion (takeB file 512) = 1 then
    ReadISQHeader initHeaderState file 512
  else none

end Scanco
namespace Scanco

/-- A concrete 2560-byte ISQ file: magic CTDATA-HEADER_V1, mu_scaling 4096,
data_offset 4 (so the header spans five blocks), an extended header whose
first directory entry is named Calibration with two data blocks, and a
calibration block storing rescale_slope 8192.0, rescale_intercept -96.0
and mu_water 0.5 in the SCANCO double encoding. -/
def c1File : Bytes :=
  mkBytes [67, 84, 68, 65, 84, 65, 45, 72, 69, 65, 68, 69, 82, 95, 86, 49] ++
  EncodeInt 3 ++ zerosB 8 ++ EncodeInt 7 ++ EncodeInt 2 ++ zerosB 8 ++
  EncodeInt 16 ++ EncodeInt 16 ++ EncodeInt 16 ++
  EncodeInt 16000 ++ EncodeInt 16000 ++ EncodeInt 16000 ++
  EncodeInt 1000 ++ EncodeInt 1000 ++ EncodeInt 0 ++
  EncodeInt 0 ++ EncodeInt 1000 ++ EncodeInt 4096 ++
  EncodeInt 16 ++ EncodeInt 8 ++ EncodeInt 16000 ++ EncodeInt 10 ++ EncodeInt 400 ++
  EncodeInt 1 ++ EncodeInt 5 ++ EncodeInt 0 ++ EncodeInt 3 ++
  zerosB 40 ++ EncodeInt 45000 ++ EncodeInt 177 ++ zerosB 332 ++ EncodeInt 4 ++
  zerosB 8 ++ mkBytes [67, 97, 108, 105, 98, 114, 97, 116, 105, 111, 110, 32, 32, 32, 32, 32] ++
  EncodeInt 2 ++ zerosB 484 ++
  zerosB 28 ++ mkBytes [67, 65, 76] ++ zerosB 601 ++ EncodeInt 2 ++ zerosB 12 ++
  mkBytes [72, 85] ++ zerosB 14 ++
  mkBytes [224, 64, 0, 0, 0, 0, 0, 0] ++ mkBytes [120, 192, 0, 0, 0, 0, 0, 0] ++ zerosB 8 ++
  mkBytes [0, 64, 0, 0, 0, 0, 0, 0] ++ zerosB 840

end Scanco

namespace Scanco

/-- C1 (code_bug): after a successful ISQ read of `c1File`, whose decoded
header has `mu_scaling = 4096 > 1` and `mu_water = 0.5 > 0`, the reader
leaves `rescale_slope = 8192/4096 = 2` (the stored slope divided by
mu_scaling) and `rescale_intercept = -96` (the stored value): the
Hounsfield override claimed (slope `1000/(mu_water*mu_scaling) =
0.48828125`, intercept `-1000`) never runs, because the block at
itkScancoImageIO.cxx:873-881 is commented out.  The repository's own test
(itkScancoImageIOTest2.cxx) expects the overridden values. -/
theorem c1_hu_override_does_not_run :
    (ReadImageInformationISQ c1File).map
      (fun st => (st.muScaling, st.muWater, st.rescaleSlope, st.rescaleIntercept)) =
      some (qofInt 4096, qmk 1 2, qofInt 2, qofInt (-96)) ∧
    qlt (qofInt 1) (qofInt 4096) ∧
    qlt (qofInt 0) (qmk 1 2) ∧
    qofInt (-96) ≠ qofInt (-1000) ∧
    qofInt 2 ≠ qdivQ (qofInt 1000) (qmul (qmk 1 2) (qofInt 4096)) := by decide

end Scanco
namespace Scanco

/-! ## Buffer-write algebra (for the ISQ writer, claim C4) -/

theorem Bytes.ext (a b : Bytes) (hv : a.val = b.val) (hl : a.len = b.len) : a = b := by
  cases a
  cases b
  simp_all

theorem zerosB_append (x : Bytes) : zerosB 0 ++ x = x := by
  apply Bytes.ext <;> simp [Bytes.append_val, Bytes.append_len, zerosB]

theorem append_zerosB (x : Bytes) : x ++ zerosB 0 = x := by
  apply Bytes.ext <;> simp [Bytes.append_val, Bytes.append_len, zerosB]

theorem Bytes.append_assoc (a b c : Bytes) : (a ++ b) ++ c = a ++ (b ++ c) := by
  apply Bytes.ext
  · simp only [Bytes.append_val, Bytes.append_len]
    rw [Nat.mul_add, pow_add]
    ring
  · simp only [Bytes.append_len]
    omega

theorem takeB_zero (b : Bytes) : takeB b 0 = zerosB 0 := by
  apply Bytes.ext <;> simp [takeB, zerosB, Nat.mod_one]

theorem dropB_zero (b : Bytes) : dropB b 0 = b := by
  apply Bytes.ext <;> simp [dropB]

theorem dropB_dropB (b : Bytes) (k m : Nat) : dropB (dropB b k) m = dropB b (k + m) := by
  apply Bytes.ext
  · simp only [dropB, Nat.div_div_eq_div_mul, ← pow_add, ← Nat.mul_add]
  · simp only [dropB]
    omega

theorem dropB_zerosB (n k : Nat) : dropB (zerosB n) k = zerosB (n - k) := by
  apply Bytes.ext <;> simp [dropB, zerosB]

theorem takeB_append_add (a b : Bytes) (k : Nat) :
    takeB (a ++ b) (a.len + k) = a ++ takeB b k := by
  apply Bytes.ext
  · simp only [takeB, Bytes.append_val]
    have hsplit : 2 ^ (8 * (a.len + k)) = 2 ^ (8 * a.len) * 2 ^ (8 * k) := by
      rw [← pow_add, Nat.mul_add]
    rw [hsplit]
    have hre : a.val + b.val * 2 ^ (8 * a.len) =
        (a.val + b.val % 2 ^ (8 * k) * 2 ^ (8 * a.len)) +
        b.val / 2 ^ (8 * k) * (2 ^ (8 * a.len) * 2 ^ (8 * k)) := by
      conv_lhs => rw [← Nat.div_add_mod b.val (2 ^ (8 * k))]
      ring
    rw [hre, Nat.add_mul_mod_self_right]
    apply Nat.mod_eq_of_lt
    have h1 := a.isLt
    have h2 : b.val % 2 ^ (8 * k) < 2 ^ (8 * k) := Nat.mod_lt _ (by positivity)
    calc a.val + b.val % 2 ^ (8 * k) * 2 ^ (8 * a.len)
        < 2 ^ (8 * a.len) + b.val % 2 ^ (8 * k) * 2 ^ (8 * a.len) := by omega
    _ = (1 + b.val % 2 ^ (8 * k)) * 2 ^ (8 * a.len) := by ring
    _ ≤ 2 ^ (8 * k) * 2 ^ (8 * a.len) := Nat.mul_le_mul_right _ (by omega)
    _ = 2 ^ (8 * a.len) * 2 ^ (8 * k) := by ring
  · simp only [takeB, Bytes.append_len]
    omega

theorem dropB_append_add (a b : Bytes) (k : Nat) :
    dropB (a ++ b) (a.len + k) = dropB b k := by
  apply Bytes.ext
  · simp only [dropB, Bytes.append_val]
    have hsplit : 2 ^ (8 * (a.len + k)) = 2 ^ (8 * a.len) * 2 ^ (8 * k) := by
      rw [← pow_add, Nat.mul_add]
    rw [hsplit, ← Nat.div_div_eq_div_mul,
      Nat.add_mul_div_right _ _ (show (0:ℕ) < 2 ^ (8 * a.len) by positivity),
      Nat.div_eq_of_lt a.isLt, Nat.zero_add]
  · simp only [dropB, Bytes.append_len]
    omega

theorem takeB_takeB_append (a b : Bytes) : takeB (a ++ b) a.len = a := by
  have h := takeB_append_add a b 0
  rw [takeB_zero, append_zerosB] at h
  simpa using h

end Scanco
namespace Scanco

theorem takeB_len_of_le (b : Bytes) (k : Nat) (h : k ≤ b.len) : (takeB b k).len = k := by
  simp [takeB]
  omega

theorem spacesB_add (m n : Nat) :
    PadString.spacesB (m + n) = PadString.spacesB m ++ PadString.spacesB n := by
  induction m with
  | zero => simp [PadString.spacesB, zerosB_append]
  | succ m ih =>
    rw [Nat.succ_add]
    show byteB 32 ++ PadString.spacesB (m + n) = (byteB 32 ++ PadString.spacesB m) ++ _
    rw [ih, Bytes.append_assoc]

/-- `PadString` output split at the field boundary: the first `n` bytes
(what lands inside an `n`-byte struct field) followed by the
`min(strlen, n)` spaces that spill past it. -/
theorem padString_decomp (src : Bytes) (n : Nat) :
    PadString src n =
      (takeB src (min (strlenB src) n) ++ PadString.spacesB (n - min (strlenB src) n)) ++
        PadString.spacesB (min (strlenB src) n) := by
  rw [PadString, Bytes.append_assoc, ← spacesB_add]
  congr 2
  have hm : min (strlenB src) n ≤ n := Nat.min_le_right _ _
  omega

end Scanco

namespace Scanco

/-! ## In-place buffer writes (for the ISQ writer)

`writeAt buf off d` overwrites the `d.len` bytes of `buf` at offset `off`
with `d`, extending the buffer when the write reaches past its end (the
modelled writer only ever writes inside its 512/1536-byte structs, so the
extension case never triggers there). -/

/-- The packed value after overwriting: low part of `buf` below `off`, then
`d`, then the part of `buf` at and beyond `off + dlen`. -/
def writeVal (bv : Nat) (off : Nat) (dv dlen : Nat) : Nat :=
  bv % 2 ^ (8 * off) + dv * 2 ^ (8 * off)
    + bv / 2 ^ (8 * (off + dlen)) * 2 ^ (8 * (off + dlen))

theorem writeVal_low_lt (bv off dv dlen : Nat) (hd : dv < 2 ^ (8 * dlen)) :
    bv % 2 ^ (8 * off) + dv * 2 ^ (8 * off) < 2 ^ (8 * (off + dlen)) := by
  have hL : bv % 2 ^ (8 * off) < 2 ^ (8 * off) := Nat.mod_lt _ (by positivity)
  have e2 : (2 : Nat) ^ (8 * (off + dlen)) = 2 ^ (8 * dlen) * 2 ^ (8 * off) := by
    rw [← pow_add]; congr 1; ring
  rw [e2]
  calc bv % 2 ^ (8 * off) + dv * 2 ^ (8 * off)
      < 2 ^ (8 * off) + dv * 2 ^ (8 * off) := by omega
    _ = (dv + 1) * 2 ^ (8 * off) := by ring
    _ ≤ 2 ^ (8 * dlen) * 2 ^ (8 * off) := Nat.mul_le_mul_right _ hd

theorem writeVal_lt (bv off dv dlen blen : Nat) (hb : bv < 2 ^ (8 * blen))
    (hd : dv < 2 ^ (8 * dlen)) :
    writeVal bv off dv dlen < 2 ^ (8 * max blen (off + dlen)) := by
  have hfit := writeVal_low_lt bv off dv dlen hd
  rw [writeVal]
  rcases le_total blen (off + dlen) with h | h
  · have hmax : max blen (off + dlen) = off + dlen := by omega
    have hH : bv / 2 ^ (8 * (off + dlen)) = 0 := by
      apply Nat.div_eq_of_lt
      exact lt_of_lt_of_le hb (Nat.pow_le_pow_right (by norm_num) (by omega))
    rw [hmax, hH]
    simpa using hfit
  · have hmax : max blen (off + dlen) = blen := by omega
    rw [hmax]
    have hsplit : (2 : Nat) ^ (8 * blen)
        = 2 ^ (8 * (off + dlen)) * 2 ^ (8 * (blen - (off + dlen))) := by
      rw [← pow_add]; congr 1; omega
    have hHlt : bv / 2 ^ (8 * (off + dlen)) < 2 ^ (8 * (blen - (off + dlen))) := by
      apply Nat.div_lt_of_lt_mul
      rw [← hsplit]; exact hb
    have h2 : (bv / 2 ^ (8 * (off + dlen)) + 1) * 2 ^ (8 * (off + dlen))
        ≤ 2 ^ (8 * (blen - (off + dlen))) * 2 ^ (8 * (off + dlen)) :=
      Nat.mul_le_mul_right _ hHlt
    have h3 : (2 : Nat) ^ (8 * (blen - (off + dlen))) * 2 ^ (8 * (off + dlen))
        = 2 ^ (8 * blen) := by
      rw [← pow_add]; congr 1; omega
    rw [h3, add_mul, one_mul] at h2
    omega

/-- Overwrite the bytes of `buf` at `off..off+d.len` with `d`. -/
def writeAt (buf : Bytes) (off : Nat) (d : Bytes) : Bytes :=
  ⟨writeVal buf.val off d.val d.len, max buf.len (off + d.len),
    writeVal_lt buf.val off d.val d.len buf.len buf.isLt d.isLt⟩

theorem writeAt_len (buf : Bytes) (off : Nat) (d : Bytes) :
    (writeAt buf off d).len = max buf.len (off + d.len) := rfl

/-- Byte extraction from `writeVal`, the arithmetic core of `byteAt_writeAt`. -/
theorem writeVal_byte (bv off dv dlen j : Nat) (hd : dv < 2 ^ (8 * dlen)) :
    writeVal bv off dv dlen / 2 ^ (8 * j) % 256 =
      if j < off then bv / 2 ^ (8 * j) % 256
      else if j < off + dlen then dv / 2 ^ (8 * (j - off)) % 256
      else bv / 2 ^ (8 * j) % 256 := by
  rw [writeVal]
  set L := bv % 2 ^ (8 * off) with hL
  set H := bv / 2 ^ (8 * (off + dlen)) with hH
  split_ifs with h1 h2
  · -- below the write
    have key : L + dv * 2 ^ (8 * off) + H * 2 ^ (8 * (off + dlen))
        = L + 2 ^ (8 * j) * (2 ^ (8 * (off - j)) * (dv + H * 2 ^ (8 * dlen))) := by
      have e1 : (2 : Nat) ^ (8 * off) = 2 ^ (8 * j) * 2 ^ (8 * (off - j)) := by
        rw [← pow_add]; congr 1; omega
      have e2 : (2 : Nat) ^ (8 * (off + dlen))
          = 2 ^ (8 * j) * 2 ^ (8 * (off - j)) * 2 ^ (8 * dlen) := by
        rw [← pow_add, ← pow_add]; congr 1; omega
      rw [e1, e2]; ring
    rw [key, Nat.add_mul_div_left _ _ (by positivity : (0 : Nat) < 2 ^ (8 * j))]
    have e3 : (2 : Nat) ^ (8 * (off - j)) * (dv + H * 2 ^ (8 * dlen))
        = 256 * (2 ^ (8 * (off - j) - 8) * (dv + H * 2 ^ (8 * dlen))) := by
      have e : (2 : Nat) ^ (8 * (off - j)) = 256 * 2 ^ (8 * (off - j) - 8) := by
        rw [show (256 : Nat) = 2 ^ 8 by norm_num, ← pow_add]; congr 1; omega
      rw [e]; ring
    rw [e3, Nat.add_mul_mod_self_left, hL]
    have e4 : (2 : Nat) ^ (8 * off) = 2 ^ (8 * j) * 2 ^ (8 * (off - j)) := by
      rw [← pow_add]; congr 1; omega
    rw [e4, Nat.mod_mul_right_div_self]
    exact Nat.mod_mod_of_dvd _ ⟨2 ^ (8 * (off - j) - 8), by
      rw [show (256 : Nat) = 2 ^ 8 by norm_num, ← pow_add]; congr 1; omega⟩
  · -- inside the write
    have key : L + dv * 2 ^ (8 * off) + H * 2 ^ (8 * (off + dlen))
        = L + 2 ^ (8 * off) * (dv + H * 2 ^ (8 * dlen)) := by
      have e2 : (2 : Nat) ^ (8 * (off + dlen)) = 2 ^ (8 * off) * 2 ^ (8 * dlen) := by
        rw [← pow_add]; ring_nf
      rw [e2]; ring
    have ej : (2 : Nat) ^ (8 * j) = 2 ^ (8 * off) * 2 ^ (8 * (j - off)) := by
      rw [← pow_add]; congr 1; omega
    have hL0 : L / 2 ^ (8 * off) = 0 := by
      rw [hL]; exact Nat.div_eq_of_lt (Nat.mod_lt _ (by positivity))
    rw [key, ej, ← Nat.div_div_eq_div_mul,
      Nat.add_mul_div_left _ _ (by positivity : (0 : Nat) < 2 ^ (8 * off)),
      hL0, zero_add]
    have key2 : dv + H * 2 ^ (8 * dlen)
        = dv + 2 ^ (8 * (j - off)) * (H * 2 ^ (8 * (dlen - (j - off)))) := by
      have ek : (2 : Nat) ^ (8 * dlen)
          = 2 ^ (8 * (j - off)) * 2 ^ (8 * (dlen - (j - off))) := by
        rw [← pow_add]; congr 1; omega
      rw [ek]; ring
    rw [key2, Nat.add_mul_div_left _ _ (by positivity : (0 : Nat) < 2 ^ (8 * (j - off)))]
    have e5 : H * 2 ^ (8 * (dlen - (j - off)))
        = 256 * (H * 2 ^ (8 * (dlen - (j - off)) - 8)) := by
      have e : (2 : Nat) ^ (8 * (dlen - (j - off)))
          = 256 * 2 ^ (8 * (dlen - (j - off)) - 8) := by
        rw [show (256 : Nat) = 2 ^ 8 by norm_num, ← pow_add]; congr 1; omega
      rw [e]; ring
    rw [e5, Nat.add_mul_mod_self_left]
  · -- at or beyond the end of the write
    have key : L + dv * 2 ^ (8 * off) + H * 2 ^ (8 * (off + dlen))
        = (L + dv * 2 ^ (8 * off)) + 2 ^ (8 * (off + dlen)) * H := by ring
    have ej : (2 : Nat) ^ (8 * j)
        = 2 ^ (8 * (off + dlen)) * 2 ^ (8 * (j - (off + dlen))) := by
      rw [← pow_add]; congr 1; omega
    have hsm : (L + dv * 2 ^ (8 * off)) / 2 ^ (8 * (off + dlen)) = 0 := by
      apply Nat.div_eq_of_lt
      rw [hL]
      exact writeVal_low_lt bv off dv dlen hd
    rw [key, ej, ← Nat.div_div_eq_div_mul,
      Nat.add_mul_div_left _ _ (by positivity : (0 : Nat) < 2 ^ (8 * (off + dlen))),
      hsm, zero_add, hH, Nat.div_div_eq_div_mul, ← ej]

/-- Reading one byte of a buffer after a write: bytes below the write and
at or beyond its end are unchanged, bytes inside come from the data. -/
theorem byteAt_writeAt (buf : Bytes) (off : Nat) (d : Bytes) (j : Nat) :
    (writeAt buf off d).byteAt j =
      if j < off then buf.byteAt j
      else if j < off + d.len then d.byteAt (j - off)
      else buf.byteAt j := by
  have h := writeVal_byte buf.val off d.val d.len j d.isLt
  exact h

end Scanco
namespace Scanco

/-! ## `EncodeDouble` (itkScancoDataManipulation.cxx:149) -/

/-- One attempt at the IEEE-754 binary64 encoding of `|v|` with binary
exponent `e`: succeeds when the scaled mantissa `|v| * 2^(52-e)` is an
integer in `[2^52, 2^53)` and the biased exponent is that of a normal
double, returning the low 63 bits of the encoding. -/
def ieeeTry (v : Q) (e : Int) : Option Nat :=
  let m : Q :=
    if e ≤ 52 then qmul (qabs v) (qofInt (2 ^ (52 - e).toNat))
    else qmk |v.num| (v.den * 2 ^ (e - 52).toNat)
  if m.den = 1 ∧ (2 ^ 52 : Int) ≤ m.num ∧ m.num < 2 ^ 53 ∧ 1 ≤ e + 1023 ∧ e + 1023 ≤ 2046
  then some ((e + 1023).toNat * 2 ^ 52 + (m.num.toNat - 2 ^ 52))
  else none

/-- The IEEE-754 binary64 bit pattern of a rational value, when the value
is zero or exactly a normal double; `none` otherwise (an inexact value
would be rounded by the C `double` arithmetic, which is outside the model;
no claim depends on those bytes).  The true binary exponent is within one
of `log2 |num| - log2 den`, so three attempts suffice. -/
def ieeeBits64 (v : Q) : Option Nat :=
  if v.num = 0 then some 0
  else
    let s : Nat := if v.num < 0 then 2 ^ 63 else 0
    let eG : Int := (Nat.log2 v.num.natAbs : Int) - (Nat.log2 v.den : Int)
    match ieeeTry v (eG - 1) with
    | some b => some (s + b)
    | none =>
      match ieeeTry v eG with
      | some b => some (s + b)
      | none =>
        match ieeeTry v (eG + 1) with
        | some b => some (s + b)
        | none => none

/-- `EncodeDouble` (itkScancoDataManipulation.cxx:149): `v.d = data / 0.25`
(an exact multiplication by 4), whose 64-bit pattern is stored with each
32-bit half byte-scrambled as `cp[0]=l>>16, cp[1]=l>>24, cp[2]=l,
cp[3]=l>>8` — the inverse of `DecodeDouble`. -/
def EncodeDouble (q : Q) : Bytes :=
  match ieeeBits64 (qmul (qofInt 4) q) with
  | some bits =>
    let l1 : Nat := bits / 2 ^ 32
    let l2 : Nat := bits % 2 ^ 32
    mkBytes [l1 / 2 ^ 16 % 256, l1 / 2 ^ 24 % 256, l1 % 256, l1 / 2 ^ 8 % 256,
      l2 / 2 ^ 16 % 256, l2 / 2 ^ 24 % 256, l2 % 256, l2 / 2 ^ 8 % 256]
  | none => zerosB 8

end Scanco
namespace Scanco

/-! ## The ISQ writer (itkISQHeaderIO.cxx) -/

/-- `ISQHeaderIO::WriteHeader` (itkISQHeaderIO.cxx:187), the 512-byte main
block: each `EncodeInt`/`PadString`/`EncodeDateFromString` call fills the
struct field at its layout offset, in program order, starting from the
zero-initialized `ISQEncodedHeaderBlock header = { 0 }`.  `PadString` into
the 16-byte `m_Version` and 40-byte `m_PatientName` fields stores up to 32
resp. 80 bytes (cf. C8), so the spills land in the following fields, which
the later writes overwrite.  C `double` expressions assigned to `int` are
truncations (`qtrunc`).  The chain is split after the fourth write
(`m_ImageSizeBlocks`) purely for proof convenience; the write order is the
program order. -/
def ISQWriteMainLow (hd : ScancoHeader) (imageSize : Nat) : Bytes :=
  let b01 := writeAt (zerosB 512) 0 (PadString hd.version 16)
  let b02 := writeAt b01 16 (EncodeInt 3)
  let b03 := writeAt b02 20 (EncodeInt (imageSize : Int))
  writeAt b03 24 (EncodeInt ((imageSize / 512 : Nat) : Int))

/-- The remaining writes of `ISQHeaderIO::WriteHeader`, continuing
`ISQWriteMainLow` in program order. -/
def ISQWriteMainBlock (hd : ScancoHeader) (imageSize : Nat) : Bytes :=
  let q1000 := qofInt 1000
  let b04 := ISQWriteMainLow hd imageSize
  let b05 := writeAt b04 28 (EncodeInt hd.patientIndex)
  let b06 := writeAt b05 32 (EncodeInt hd.scannerID)
  let b07 := writeAt b06 36 (EncodeDate hd.creationDate)
  let b08 := writeAt b07 44 (EncodeInt hd.dimensions.1)
  let b09 := writeAt b08 48 (EncodeInt hd.dimensions.2.1)
  let b10 := writeAt b09 52 (EncodeInt hd.dimensions.2.2)
  let b11 := writeAt b10 56
    (EncodeInt (qtrunc (qmul (qmul hd.spacing.1 (qofInt hd.dimensions.1)) q1000)))
  let b12 := writeAt b11 60
    (EncodeInt (qtrunc (qmul (qmul hd.spacing.2.1 (qofInt hd.dimensions.2.1)) q1000)))
  let b13 := writeAt b12 64
    (EncodeInt (qtrunc (qmul (qmul hd.spacing.2.2 (qofInt hd.dimensions.2.2)) q1000)))
  let b14 := writeAt b13 68 (EncodeInt (qtrunc (qmul hd.sliceThickness q1000)))
  let b15 := writeAt b14 72 (EncodeInt (qtrunc (qmul hd.sliceIncrement q1000)))
  let b16 := writeAt b15 76 (EncodeInt (qtrunc (qmul hd.startPosition q1000)))
  let b17 := writeAt b16 80 (EncodeInt (qtrunc hd.dataRange.1))
  let b18 := writeAt b17 84 (EncodeInt (qtrunc hd.dataRange.2))
  let b19 := writeAt b18 88 (EncodeInt (qtrunc hd.muScaling))
  let b20 := writeAt b19 92 (EncodeInt hd.numberOfSamples)
  let b21 := writeAt b20 96 (EncodeInt hd.numberOfProjections)
  let b22 := writeAt b21 100 (EncodeInt (qtrunc (qmul hd.scanDistance q1000)))
  let b23 := writeAt b22 104 (EncodeInt hd.scannerType)
  let b24 := writeAt b23 108 (EncodeInt (qtrunc (qmul hd.sampleTime q1000)))
  let b25 := writeAt b24 112 (EncodeInt hd.measurementIndex)
  let b26 := writeAt b25 116 (EncodeInt hd.site)
  let b27 := writeAt b26 120 (EncodeInt (qtrunc (qmul hd.referenceLine q1000)))
  let b28 := writeAt b27 124 (EncodeInt hd.reconstructionAlg)
  let b29 := writeAt b28 128 (PadString hd.patientName 40)
  let b30 := writeAt b29 168 (EncodeInt (qtrunc (qmul hd.energy q1000)))
  let b31 := writeAt b30 172 (EncodeInt (qtrunc (qmul hd.intensity q1000)))
  let b32 := writeAt b31 176 (zerosB 332)
  writeAt b32 508 (EncodeInt 4)

/-- The first extended-header block written by
`ISQHeaderIO::WriteExtendedHeader` (itkISQHeaderIO.cxx:434): 512 zero bytes
with the ASCII marker `MultiHeader     ` copied to offset 8. -/
def multiBlockISQ : Bytes :=
  writeAt (zerosB 512) 8
    (mkBytes [77, 117, 108, 116, 105, 72, 101, 97, 100, 101, 114, 32, 32, 32, 32, 32])

/-- The 1536-byte `ISQCalibrationHeaderBlock` written by
`ISQHeaderIO::WriteExtendedHeader` (itkISQHeaderIO.cxx:444): zero
initialized, then the ASCII title `Calibration     ` at offset 136 (the
position of `m_Title`), the calibration-data pad at 540, `CalHeaderSize`
2 at 152, `RescaleType` at 1144, the units pad at 1160 (its spill over the
16-byte field is overwritten by the two following doubles), the slope and
intercept doubles at 1176/1184, and mu-water at 1200. -/
def calBlockISQ (hd : ScancoHeader) : Bytes :=
  let b1 := writeAt (zerosB 1536) 136
    (mkBytes [67, 97, 108, 105, 98, 114, 97, 116, 105, 111, 110, 32, 32, 32, 32, 32])
  let b2 := writeAt b1 540 (PadString hd.calibrationData 64)
  let b3 := writeAt b2 152 (EncodeInt 2)
  let b4 := writeAt b3 1144 (EncodeInt hd.rescaleType)
  let b5 := writeAt b4 1160 (PadString hd.rescaleUnits 16)
  let b6 := writeAt b5 1176 (EncodeDouble hd.rescaleSlope)
  let b7 := writeAt b6 1184 (EncodeDouble hd.rescaleIntercept)
  writeAt b7 1200 (EncodeDouble hd.muWater)

/-- `ISQHeaderIO::WriteExtendedHeader` (itkISQHeaderIO.cxx:431): the bytes
written after the main block — one MultiHeader block and one calibration
block, 2048 bytes in total (the function's return value is this length). -/
def ISQWriteExtendedHeader (hd : ScancoHeader) : Bytes :=
  multiBlockISQ ++ calBlockISQ hd

/-- `ISQHeaderIO::WriteHeader` (itkISQHeaderIO.cxx:187): throws (`none`)
when `imageSize` is zero, otherwise writes the 512-byte main block followed
by the extended header. -/
def ISQWriteHeader (hd : ScancoHeader) (imageSize : Nat) : Option (Bytes × Bytes) :=
  if imageSize = 0 then none
  else some (ISQWriteMainBlock hd imageSize, ISQWriteExtendedHeader hd)

end Scanco
namespace Scanco

theorem encodeInt_len (n : Int) : (EncodeInt n).len = 4 := rfl

theorem encodeDate_len (d : DateT) : (EncodeDate d).len = 8 := rfl

theorem encodeDouble_len (q : Q) : (EncodeDouble q).len = 8 := by
  rw [EncodeDouble]
  cases ieeeBits64 (qmul (qofInt 4) q) <;> rfl

theorem zerosB_len (n : Nat) : (zerosB n).len = n := rfl

/-- Length of the written main block. -/
theorem mainBlockISQ_len (hd : ScancoHeader) (sz : Nat) :
    (ISQWriteMainBlock hd sz).len = 512 := by
  have h1 : (PadString hd.version 16).len = min (strlenB hd.version) 16 + 16 :=
    padString_len _ _
  have h2 : (PadString hd.patientName 40).len = min (strlenB hd.patientName) 40 + 40 :=
    padString_len _ _
  simp only [ISQWriteMainBlock, ISQWriteMainLow, writeAt_len, encodeInt_len,
    encodeDate_len, zerosB_len]
  omega

/-- Length of the written extended header. -/
theorem extHeaderISQ_len (hd : ScancoHeader) :
    (ISQWriteExtendedHeader hd).len = 2048 := by
  have h1 : (PadString hd.calibrationData 64).len = min (strlenB hd.calibrationData) 64 + 64 :=
    padString_len _ _
  have h2 : (PadString hd.rescaleUnits 16).len = min (strlenB hd.rescaleUnits) 16 + 16 :=
    padString_len _ _
  have hm : (mkBytes [77, 117, 108, 116, 105, 72, 101, 97, 100, 101, 114,
      32, 32, 32, 32, 32]).len = 16 := rfl
  have hc : (mkBytes [67, 97, 108, 105, 98, 114, 97, 116, 105, 111, 110,
      32, 32, 32, 32, 32]).len = 16 := rfl
  simp only [ISQWriteExtendedHeader, multiBlockISQ, calBlockISQ, Bytes.append_len,
    writeAt_len, encodeInt_len, encodeDouble_len, zerosB_len, hm, hc]
  omega

end Scanco

namespace Scanco

theorem byteAt_writeAt_below (buf : Bytes) (off : Nat) (d : Bytes) (j : Nat)
    (h : j < off) : (writeAt buf off d).byteAt j = buf.byteAt j := by
  rw [byteAt_writeAt, if_pos h]

theorem byteAt_writeAt_hit (buf : Bytes) (off : Nat) (d : Bytes) (j : Nat)
    (h1 : off ≤ j) (h2 : j < off + d.len) :
    (writeAt buf off d).byteAt j = d.byteAt (j - off) := by
  rw [byteAt_writeAt, if_neg (Nat.not_lt.2 h1), if_pos h2]

/-- All 29 writes following `ISQWriteMainLow` are at offsets 28 and above,
so the low 28 bytes of the main block come from `ISQWriteMainLow`. -/
theorem mainBlock_low_bytes (hd : ScancoHeader) (sz : Nat) (j : Nat) (hj : j < 28) :
    (ISQWriteMainBlock hd sz).byteAt j = (ISQWriteMainLow hd sz).byteAt j := by
  simp only [ISQWriteMainBlock]
  rw [byteAt_writeAt_below _ _ _ _ (by omega)]
  rw [byteAt_writeAt_below _ _ _ _ (by omega)]
  rw [byteAt_writeAt_below _ _ _ _ (by omega)]
  rw [byteAt_writeAt_below _ _ _ _ (by omega)]
  rw [byteAt_writeAt_below _ _ _ _ (by omega)]
  rw [byteAt_writeAt_below _ _ _ _ (by omega)]
  rw [byteAt_writeAt_below _ _ _ _ (by omega)]
  rw [byteAt_writeAt_below _ _ _ _ (by omega)]
  rw [byteAt_writeAt_below _ _ _ _ (by omega)]
  rw [byteAt_writeAt_below _ _ _ _ (by omega)]
  rw [byteAt_writeAt_below _ _ _ _ (by omega)]
  rw [byteAt_writeAt_below _ _ _ _ (by omega)]
  rw [byteAt_writeAt_below _ _ _ _ (by omega)]
  rw [byteAt_writeAt_below _ _ _ _ (by omega)]
  rw [byteAt_writeAt_below _ _ _ _ (by omega)]
  rw [byteAt_writeAt_below _ _ _ _ (by omega)]
  rw [byteAt_writeAt_below _ _ _ _ (by omega)]
  rw [byteAt_writeAt_below _ _ _ _ (by omega)]
  rw [byteAt_writeAt_below _ _ _ _ (by omega)]
  rw [byteAt_writeAt_below _ _ _ _ (by omega)]
  rw [byteAt_writeAt_below _ _ _ _ (by omega)]
  rw [byteAt_writeAt_below _ _ _ _ (by omega)]
  rw [byteAt_writeAt_below _ _ _ _ (by omega)]
  rw [byteAt_writeAt_below _ _ _ _ (by omega)]
  rw [byteAt_writeAt_below _ _ _ _ (by omega)]
  rw [byteAt_writeAt_below _ _ _ _ (by omega)]
  rw [byteAt_writeAt_below _ _ _ _ (by omega)]
  rw [byteAt_writeAt_below _ _ _ _ (by omega)]
  rw [byteAt_writeAt_below _ _ _ _ (by omega)]

/-- A 32-bit little-endian decode as a function of the four bytes it reads. -/
theorem decodeInt_eq_bytes (b : Bytes) (off : Nat) :
    DecodeInt b off =
      (if b.byteAt off + 256 * (b.byteAt (off + 1) + 256 * (b.byteAt (off + 2)
            + 256 * b.byteAt (off + 3))) < 2 ^ 31
       then (((b.byteAt off + 256 * (b.byteAt (off + 1) + 256 * (b.byteAt (off + 2)
            + 256 * b.byteAt (off + 3)))) : Nat) : Int)
       else (((b.byteAt off + 256 * (b.byteAt (off + 1) + 256 * (b.byteAt (off + 2)
            + 256 * b.byteAt (off + 3)))) : Nat) : Int) - 2 ^ 32) := by
  have e1 : (2 : Nat) ^ (8 * (off + 1)) = 2 ^ (8 * off) * 256 := by
    have h : 8 * (off + 1) = 8 * off + 8 := by ring
    rw [h, pow_add]
    norm_num
  have e2 : (2 : Nat) ^ (8 * (off + 2)) = 2 ^ (8 * off) * 65536 := by
    have h : 8 * (off + 2) = 8 * off + 16 := by ring
    rw [h, pow_add]
    norm_num
  have e3 : (2 : Nat) ^ (8 * (off + 3)) = 2 ^ (8 * off) * 16777216 := by
    have h : 8 * (off + 3) = 8 * off + 24 := by ring
    rw [h, pow_add]
    norm_num
  have h1 : b.byteAt (off + 1) = b.val / 2 ^ (8 * off) / 256 % 256 := by
    rw [Bytes.byteAt, e1, Nat.div_div_eq_div_mul]
  have h2 : b.byteAt (off + 2) = b.val / 2 ^ (8 * off) / 65536 % 256 := by
    rw [Bytes.byteAt, e2, Nat.div_div_eq_div_mul]
  have h3 : b.byteAt (off + 3) = b.val / 2 ^ (8 * off) / 16777216 % 256 := by
    rw [Bytes.byteAt, e3, Nat.div_div_eq_div_mul]
  have h0 : b.byteAt off = b.val / 2 ^ (8 * off) % 256 := rfl
  have hx : b.val / 2 ^ (8 * off) % 2 ^ 32
      = b.byteAt off + 256 * (b.byteAt (off + 1) + 256 * (b.byteAt (off + 2)
          + 256 * b.byteAt (off + 3))) := by
    rw [h0, h1, h2, h3, show (2 : Nat) ^ 32 = 4294967296 by norm_num]
    omega
  simp only [DecodeInt]
  rw [hx]

/-- The last write of the main block: `EncodeInt(4, header.m_DataOffset)`
at byte 508 (itkISQHeaderIO.cxx:243), so `data_offset` reads back as 4. -/
theorem mainBlock_data_offset (hd : ScancoHeader) (sz : Nat) :
    DecodeInt (ISQWriteMainBlock hd sz) 508 = 4 := by
  rw [decodeInt_eq_bytes]
  simp only [ISQWriteMainBlock]
  iterate 4
    rw [byteAt_writeAt_hit _ _ _ _ (by omega) (by simp only [encodeInt_len]; omega)]
  decide

/-- `EncodeInt(3, header.m_PreHeader.m_DataType)` (itkISQHeaderIO.cxx:203):
the data-type field of the written block reads back as 3. -/
theorem mainBlock_data_type (hd : ScancoHeader) (sz : Nat) :
    DecodeInt (ISQWriteMainBlock hd sz) 16 = 3 := by
  rw [decodeInt_eq_bytes]
  rw [mainBlock_low_bytes hd sz 16 (by omega), mainBlock_low_bytes hd sz (16 + 1) (by omega),
    mainBlock_low_bytes hd sz (16 + 2) (by omega), mainBlock_low_bytes hd sz (16 + 3) (by omega)]
  simp only [ISQWriteMainLow]
  iterate 4
    rw [byteAt_writeAt_below _ _ _ _ (by omega)]
    rw [byteAt_writeAt_below _ _ _ _ (by omega)]
    rw [byteAt_writeAt_hit _ _ _ _ (by omega) (by simp only [encodeInt_len]; omega)]
  decide

/-- Bytes 20..23 of the written block are the `EncodeInt` encoding of the
payload size in bytes (itkISQHeaderIO.cxx:204). -/
theorem mainBlock_size_bytes (hd : ScancoHeader) (sz : Nat) (j : Nat) (hj : j < 4) :
    (ISQWriteMainBlock hd sz).byteAt (20 + j) = (EncodeInt (sz : Int)).byteAt j := by
  rw [mainBlock_low_bytes hd sz (20 + j) (by omega)]
  simp only [ISQWriteMainLow]
  rw [byteAt_writeAt_below _ _ _ _ (by omega)]
  rw [byteAt_writeAt_hit _ _ _ _ (by omega) (by simp only [encodeInt_len]; omega)]
  congr 1
  omega

/-- Bytes 24..27 of the written block are the `EncodeInt` encoding of the
payload size in 512-byte blocks (itkISQHeaderIO.cxx:205). -/
theorem mainBlock_size_blocks (hd : ScancoHeader) (sz : Nat) (j : Nat) (hj : j < 4) :
    (ISQWriteMainBlock hd sz).byteAt (24 + j)
      = (EncodeInt ((sz / 512 : Nat) : Int)).byteAt j := by
  rw [mainBlock_low_bytes hd sz (24 + j) (by omega)]
  simp only [ISQWriteMainLow]
  rw [byteAt_writeAt_hit _ _ _ _ (by omega) (by simp only [encodeInt_len]; omega)]
  congr 1
  omega

end Scanco

namespace Scanco

/-- C4 (corrected): for every header state and non-zero payload size,
`ISQHeaderIO::WriteHeader` emits a 512-byte main block with `data_type` 3
at byte 16 and the payload size in bytes and in 512-byte blocks encoded at
bytes 20 and 24 — but the `data_offset` field at byte 508 holds 4, not 0,
and 2048 bytes of extended header (one MultiHeader block and one 1536-byte
calibration block) are written after the main block. -/
theorem c4_isq_write_layout (hd : ScancoHeader) (imageSize : Nat)
    (h : imageSize ≠ 0) :
    ISQWriteHeader hd imageSize
        = some (ISQWriteMainBlock hd imageSize, ISQWriteExtendedHeader hd) ∧
    (ISQWriteMainBlock hd imageSize).len = 512 ∧
    DecodeInt (ISQWriteMainBlock hd imageSize) 16 = 3 ∧
    (∀ j, j < 4 → (ISQWriteMainBlock hd imageSize).byteAt (20 + j)
        = (EncodeInt (imageSize : Int)).byteAt j) ∧
    (∀ j, j < 4 → (ISQWriteMainBlock hd imageSize).byteAt (24 + j)
        = (EncodeInt ((imageSize / 512 : Nat) : Int)).byteAt j) ∧
    DecodeInt (ISQWriteMainBlock hd imageSize) 508 = 4 ∧
    (ISQWriteExtendedHeader hd).len = 2048 :=
  ⟨by rw [ISQWriteHeader, if_neg h],
    mainBlockISQ_len hd imageSize,
    mainBlock_data_type hd imageSize,
    fun j hj => mainBlock_size_bytes hd imageSize j hj,
    fun j hj => mainBlock_size_blocks hd imageSize j hj,
    mainBlock_data_offset hd imageSize,
    extHeaderISQ_len hd⟩

/-- C4 counterexample: for the zero-initialized header state and a payload
of 1024 bytes, the written `data_offset` field is not 0 and the extended
header is not empty, contradicting the claimed `data_offset = 0` with no
extended blocks. -/
theorem c4_isq_write_counterexample :
    DecodeInt (ISQWriteMainBlock initHeaderState 1024) 508 ≠ 0 ∧
    (ISQWriteExtendedHeader initHeaderState).len ≠ 0 := by
  constructor
  · rw [mainBlock_data_offset]
    decide
  · rw [extHeaderISQ_len]
    decide

/-- C4 witness: the layout theorem applied at the zero-initialized header
state with a 1024-byte payload. -/
theorem c4_isq_write_layout_witness :
    (1024 : Nat) ≠ 0 ∧
    (ISQWriteMainBlock initHeaderState 1024).len = 512 ∧
    (ISQWriteExtendedHeader initHeaderState).len = 2048 :=
  ⟨by decide,
    (c4_isq_write_layout initHeaderState 1024 (by decide)).2.1,
    (c4_isq_write_layout initHeaderState 1024 (by decide)).2.2.2.2.2.2⟩

end Scanco

namespace Scanco

/-! ## AIM mode 0xb2 payload decoding

No decompression code exists under src — the reader only assigns the mode
tag `Compression = 0x00b2` (itkScancoImageIO.cxx:606).  The decoder below
is therefore taken from the specification prose itself, to check the
spec's example against its own stated rule. -/

/-- Modelled from the spec: §4.5 mode 0xb2 (binary run-length), the run
loop.  Each input byte L emits L copies of the current value (`v0` when
`cur` is false, `v1` when true) and then flips to the other value, except
that L = 255 emits 254 copies and leaves the state unchanged ("254 then do
not flip afterwards" — equivalently 254 plus an immediate state toggle
that cancels the post-run flip). -/
def decodeB2Runs (v0 v1 : Nat) : List Nat → Bool → List Nat
  | [], _ => []
  | l :: rest, cur =>
    if l = 255 then
      List.replicate 254 (if cur then v1 else v0) ++ decodeB2Runs v0 v1 rest cur
    else
      List.replicate l (if cur then v1 else v0) ++ decodeB2Runs v0 v1 rest (!cur)

/-- Modelled from the spec: §4.5 mode 0xb2.  The first two input bytes are
the two alternate output values `v0, v1`; the remaining bytes are run
lengths, decoded starting at `v0`; the output is truncated to the declared
output length. -/
def decodeB2 (input : List Nat) (outLen : Nat) : Option (List Nat) :=
  match input with
  | v0 :: v1 :: runs => some ((decodeB2Runs v0 v1 runs false).take outLen)
  | _ => none

/-- Number of output values produced by a run list before truncation:
each run contributes its length, with 255 contributing 254. -/
def b2RunTotal (runs : List Nat) : Nat :=
  (runs.map (fun l => if l = 255 then 254 else l)).sum

/-- C7 (corrected): mode 0xb2 reads `v0, v1` from the first two bytes and
each further byte L emits L copies of the current value then flips, with
L = 255 emitting 254 copies and not flipping — as claimed; each run hence
contributes `if L = 255 then 254 else L` output values.  But on the
claim's example the 255-run leaves the current value at `v0 = 0`, so the
trailing run of 4 emits four more 0s: the decode of `v0=0, v1=255,
[3, 2, 255, 4]` at output length 263 is 3 zeros, two 255s, then 258
zeros — not the claimed `..., 254 zeros, four 255s`. -/
theorem c7_b2_decode (v0 v1 : Nat) (runs : List Nat) (outLen : Nat) :
    decodeB2 (v0 :: v1 :: runs) outLen
        = some ((decodeB2Runs v0 v1 runs false).take outLen) ∧
    (∀ cur, (decodeB2Runs v0 v1 runs cur).length = b2RunTotal runs) ∧
    decodeB2 [0, 255, 3, 2, 255, 4] 263
      = some (List.replicate 3 0 ++ List.replicate 2 255 ++ List.replicate 258 0) := by
  refine ⟨rfl, ?_, by decide⟩
  induction runs with
  | nil => intro cur; rfl
  | cons l rest ih =>
    intro cur
    by_cases h : l = 255
    · simp only [decodeB2Runs, if_pos h, List.length_append, List.length_replicate,
        ih cur, b2RunTotal, List.map_cons, List.sum_cons, if_pos h]
    · simp only [decodeB2Runs, if_neg h, List.length_append, List.length_replicate,
        ih (!cur), b2RunTotal, List.map_cons, List.sum_cons, if_neg h]

/-- C7 counterexample: under the stated no-flip rule for L = 255,
the claimed expected output (ending in four 255s) differs from the decode
at position 259, which is 0, not 255. -/
theorem c7_b2_example_counterexample :
    decodeB2 [0, 255, 3, 2, 255, 4] 263
        ≠ some (List.replicate 3 0 ++ List.replicate 2 255
            ++ List.replicate 254 0 ++ List.replicate 4 255) ∧
    (decodeB2 [0, 255, 3, 2, 255, 4] 263).map (fun l => l.getD 259 0) = some 0 := by
  decide

end Scanco
